import Mathlib

/-!
Verification development for the Online-Photo-Share server core.

The JavaScript source is embedded shallowly:

* A JavaScript `Map` is modelled as an insertion-ordered association list
  (`List (κ × α)`) with `alookup` / `aset` / `aerase` mirroring
  `Map.get` / `Map.set` / `Map.delete`.  A JS `Map` never holds duplicate
  keys; the operations below preserve that shape, and the lemmas that need
  it take a `keysNodup` hypothesis.
* A JavaScript `Set` (the member set of a session) is an insertion-ordered
  duplicate-free `List String`, with `setAdd` mirroring `Set.add` and
  `List.erase` mirroring `Set.delete`.
* A Node `Buffer` is a `List Nat` of byte values.
* Strings that undergo character-level processing (message content,
  filenames) are `List Char`, so that `String.prototype.trim`, the
  sanitisation `replace` calls and `.length` (counted in code points) have
  direct counterparts.  Identifiers and MIME types stay `String`.
* `Date.now()` is an explicit `now : Nat` argument on every operation that
  reads the clock; crypto-random identifiers (session codes, file ids,
  message ids, upload ids) are explicit arguments.
* Methods that both return a value and mutate the singleton store become
  functions `… → Store → Result × Store`.
-/

namespace PhotoShare

/-- Lookup in an association list, mirroring `Map.get` (first matching key). -/
def alookup {κ α : Type} [DecidableEq κ] (k : κ) : List (κ × α) → Option α
  | [] => none
  | (k2, v) :: rest => if k2 = k then some v else alookup k rest

/-- Update in an association list, mirroring `Map.set`: replace the first
entry with the key in place, else append a new entry. -/
def aset {κ α : Type} [DecidableEq κ] (k : κ) (v : α) : List (κ × α) → List (κ × α)
  | [] => [(k, v)]
  | (k2, v2) :: rest => if k2 = k then (k, v) :: rest else (k2, v2) :: aset k v rest

/-- Removal from an association list, mirroring `Map.delete` (first matching key). -/
def aerase {κ α : Type} [DecidableEq κ] (k : κ) : List (κ × α) → List (κ × α)
  | [] => []
  | (k2, v2) :: rest => if k2 = k then rest else (k2, v2) :: aerase k rest

/-- Deleting each key of `ks` in turn, mirroring a `for … of` loop of `Map.delete` calls. -/
def eraseKeys {κ α : Type} [DecidableEq κ] (ks : List κ) (l : List (κ × α)) : List (κ × α) :=
  ks.foldl (fun acc k => aerase k acc) l

/-- The keys of an association list occur at most once (the `Map` shape). -/
def keysNodup {κ α : Type} (l : List (κ × α)) : Prop := (l.map Prod.fst).Nodup

/-- Sum of a numeric measure of the values of an association list. -/
def sumVals {κ α : Type} (g : α → Nat) (l : List (κ × α)) : Nat :=
  (l.map (fun p => g p.2)).sum

/-- Insertion into a JS `Set` held as a duplicate-free list: no-op when present,
append otherwise. -/
def setAdd {α : Type} [DecidableEq α] (x : α) (l : List α) : List α :=
  if x ∈ l then l else l ++ [x]

section AssocLemmas

variable {κ α : Type} [DecidableEq κ]

theorem alookup_aset_self (k : κ) (v : α) (l : List (κ × α)) :
    alookup k (aset k v l) = some v := by
  induction l with
  | nil => simp [aset, alookup]
  | cons hd tl ih =>
    obtain ⟨a, b⟩ := hd
    by_cases h : a = k <;> simp [aset, alookup, h, ih]

theorem alookup_aset_ne (k k2 : κ) (v : α) (l : List (κ × α)) (h : k2 ≠ k) :
    alookup k2 (aset k v l) = alookup k2 l := by
  have hne : ¬ k = k2 := fun he => h he.symm
  induction l with
  | nil => simp [aset, alookup, hne]
  | cons hd tl ih =>
    obtain ⟨a, b⟩ := hd
    by_cases hh : a = k
    · subst hh
      simp [aset, alookup, hne]
    · simp [aset, alookup, hh, ih]

theorem aset_eq_self (k : κ) (v : α) (l : List (κ × α)) (h : alookup k l = some v) :
    aset k v l = l := by
  induction l with
  | nil => simp [alookup] at h
  | cons hd tl ih =>
    obtain ⟨a, b⟩ := hd
    by_cases hh : a = k
    · subst hh
      simp [alookup] at h
      subst h
      simp [aset]
    · simp only [alookup, if_neg hh] at h
      simp [aset, hh, ih h]

theorem alookup_aerase_ne (k k2 : κ) (l : List (κ × α)) (h : k2 ≠ k) :
    alookup k2 (aerase k l) = alookup k2 l := by
  have hne : ¬ k = k2 := fun he => h he.symm
  induction l with
  | nil => simp [aerase]
  | cons hd tl ih =>
    obtain ⟨a, b⟩ := hd
    by_cases hh : a = k
    · subst hh
      simp [aerase, alookup, hne]
    · simp [aerase, alookup, hh, ih]

theorem alookup_none_iff (k : κ) (l : List (κ × α)) :
    alookup k l = none ↔ k ∉ l.map Prod.fst := by
  induction l with
  | nil => simp [alookup]
  | cons hd tl ih =>
    obtain ⟨a, b⟩ := hd
    by_cases hh : a = k
    · subst hh
      simp [alookup]
    · have hne : ¬ k = a := fun he => hh he.symm
      simp only [alookup, if_neg hh, List.map_cons, List.mem_cons]
      rw [ih]
      simp [hne]

theorem alookup_aerase_self (k : κ) (l : List (κ × α)) (h : keysNodup l) :
    alookup k (aerase k l) = none := by
  induction l with
  | nil => simp [aerase, alookup]
  | cons hd tl ih =>
    obtain ⟨a, b⟩ := hd
    simp only [keysNodup, List.map_cons, List.nodup_cons] at h
    by_cases hh : a = k
    · subst hh
      simp only [aerase, if_pos rfl]
      exact (alookup_none_iff a tl).mpr h.1
    · simp [aerase, alookup, hh, ih h.2]

theorem aerase_of_lookup_none (k : κ) (l : List (κ × α)) (h : alookup k l = none) :
    aerase k l = l := by
  induction l with
  | nil => simp [aerase]
  | cons hd tl ih =>
    obtain ⟨a, b⟩ := hd
    by_cases hh : a = k
    · simp [alookup, hh] at h
    · simp only [alookup, if_neg hh] at h
      simp [aerase, hh, ih h]

theorem alookup_some_mem (k : κ) (v : α) (l : List (κ × α)) (h : alookup k l = some v) :
    (k, v) ∈ l := by
  induction l with
  | nil => simp [alookup] at h
  | cons hd tl ih =>
    obtain ⟨a, b⟩ := hd
    by_cases hh : a = k
    · subst hh
      simp [alookup] at h
      subst h
      exact List.mem_cons_self _ _
    · simp only [alookup, if_neg hh] at h
      exact List.mem_cons_of_mem _ (ih h)

theorem mem_aset (k : κ) (v : α) (p : κ × α) (l : List (κ × α)) (h : p ∈ aset k v l) :
    p = (k, v) ∨ p ∈ l := by
  induction l with
  | nil =>
    simp [aset] at h
    exact Or.inl h
  | cons hd tl ih =>
    obtain ⟨a, b⟩ := hd
    by_cases hh : a = k
    · simp only [aset, if_pos hh] at h
      rcases List.mem_cons.mp h with h | h
      · exact Or.inl h
      · exact Or.inr (List.mem_cons_of_mem _ h)
    · simp only [aset, if_neg hh] at h
      rcases List.mem_cons.mp h with h | h
      · exact Or.inr (h ▸ List.mem_cons_self _ _)
      · rcases ih h with h | h
        · exact Or.inl h
        · exact Or.inr (List.mem_cons_of_mem _ h)

theorem mem_aerase (k : κ) (p : κ × α) (l : List (κ × α)) (h : p ∈ aerase k l) :
    p ∈ l := by
  induction l with
  | nil => simp [aerase] at h
  | cons hd tl ih =>
    obtain ⟨a, b⟩ := hd
    by_cases hh : a = k
    · simp only [aerase, if_pos hh] at h
      exact List.mem_cons_of_mem _ h
    · simp only [aerase, if_neg hh] at h
      rcases List.mem_cons.mp h with h | h
      · exact h ▸ List.mem_cons_self _ _
      · exact List.mem_cons_of_mem _ (ih h)

theorem length_aset_none (k : κ) (v : α) (l : List (κ × α)) (h : alookup k l = none) :
    (aset k v l).length = l.length + 1 := by
  induction l with
  | nil => simp [aset]
  | cons hd tl ih =>
    obtain ⟨a, b⟩ := hd
    by_cases hh : a = k
    · simp [alookup, hh] at h
    · simp only [alookup, if_neg hh] at h
      simp [aset, hh, ih h]

theorem length_aset_some (k : κ) (v w : α) (l : List (κ × α)) (h : alookup k l = some w) :
    (aset k v l).length = l.length := by
  induction l with
  | nil => simp [alookup] at h
  | cons hd tl ih =>
    obtain ⟨a, b⟩ := hd
    by_cases hh : a = k
    · simp [aset, hh]
    · simp only [alookup, if_neg hh] at h
      simp [aset, hh, ih h]

theorem length_aerase_some (k : κ) (w : α) (l : List (κ × α)) (h : alookup k l = some w) :
    (aerase k l).length + 1 = l.length := by
  induction l with
  | nil => simp [alookup] at h
  | cons hd tl ih =>
    obtain ⟨a, b⟩ := hd
    by_cases hh : a = k
    · simp [aerase, hh]
    · simp only [alookup, if_neg hh] at h
      simp [aerase, hh, ih h]

theorem keysNodup_aset (k : κ) (v : α) (l : List (κ × α)) (h : keysNodup l) :
    keysNodup (aset k v l) := by
  induction l with
  | nil => simp [aset, keysNodup]
  | cons hd tl ih =>
    obtain ⟨a, b⟩ := hd
    simp only [keysNodup, List.map_cons, List.nodup_cons] at h
    by_cases hh : a = k
    · subst hh
      simpa [aset, keysNodup] using h
    · simp only [aset, if_neg hh, keysNodup, List.map_cons, List.nodup_cons]
      refine ⟨?_, ih h.2⟩
      intro hmem
      rcases List.mem_map.mp hmem with ⟨p, hp, hp1⟩
      rcases mem_aset k v p tl hp with hcase | hcase
      · exact hh (by rw [hcase] at hp1; exact hp1.symm)
      · exact h.1 (hp1 ▸ List.mem_map_of_mem Prod.fst hcase)

theorem keysNodup_aerase (k : κ) (l : List (κ × α)) (h : keysNodup l) :
    keysNodup (aerase k l) := by
  induction l with
  | nil => simp [aerase, keysNodup]
  | cons hd tl ih =>
    obtain ⟨a, b⟩ := hd
    simp only [keysNodup, List.map_cons, List.nodup_cons] at h
    by_cases hh : a = k
    · simp only [aerase, if_pos hh]
      exact h.2
    · simp only [aerase, if_neg hh, keysNodup, List.map_cons, List.nodup_cons]
      refine ⟨?_, ih h.2⟩
      intro hmem
      rcases List.mem_map.mp hmem with ⟨p, hp, hp1⟩
      exact h.1 (hp1 ▸ List.mem_map_of_mem Prod.fst (mem_aerase k p tl hp))

theorem sumVals_aset_none (g : α → Nat) (k : κ) (v : α) (l : List (κ × α))
    (h : alookup k l = none) : sumVals g (aset k v l) = sumVals g l + g v := by
  induction l with
  | nil => simp [aset, sumVals]
  | cons hd tl ih =>
    obtain ⟨a, b⟩ := hd
    by_cases hh : a = k
    · simp [alookup, hh] at h
    · simp only [alookup, if_neg hh] at h
      simp only [aset, if_neg hh, sumVals, List.map_cons, List.sum_cons]
      have := ih h
      simp only [sumVals] at this
      omega

theorem sumVals_aset_some (g : α → Nat) (k : κ) (v w : α) (l : List (κ × α))
    (h : alookup k l = some w) :
    sumVals g (aset k v l) + g w = sumVals g l + g v := by
  induction l with
  | nil => simp [alookup] at h
  | cons hd tl ih =>
    obtain ⟨a, b⟩ := hd
    by_cases hh : a = k
    · simp only [alookup, if_pos hh, Option.some.injEq] at h
      subst h
      simp only [aset, if_pos hh, sumVals, List.map_cons, List.sum_cons]
      omega
    · simp only [alookup, if_neg hh] at h
      simp only [aset, if_neg hh, sumVals, List.map_cons, List.sum_cons]
      have := ih h
      simp only [sumVals] at this
      omega

theorem sumVals_aerase_some (g : α → Nat) (k : κ) (w : α) (l : List (κ × α))
    (h : alookup k l = some w) :
    sumVals g (aerase k l) + g w = sumVals g l := by
  induction l with
  | nil => simp [alookup] at h
  | cons hd tl ih =>
    obtain ⟨a, b⟩ := hd
    by_cases hh : a = k
    · simp only [alookup, if_pos hh, Option.some.injEq] at h
      subst h
      simp only [aerase, if_pos hh, sumVals, List.map_cons, List.sum_cons]
      omega
    · simp only [alookup, if_neg hh] at h
      simp only [aerase, if_neg hh, sumVals, List.map_cons, List.sum_cons]
      have := ih h
      simp only [sumVals] at this
      omega

theorem alookup_eraseKeys (ks : List κ) (l : List (κ × α)) (k : κ) (h : keysNodup l) :
    alookup k (eraseKeys ks l) = if k ∈ ks then none else alookup k l := by
  induction ks generalizing l with
  | nil => simp [eraseKeys]
  | cons k0 ks ih =>
    have step : eraseKeys (k0 :: ks) l = eraseKeys ks (aerase k0 l) := by
      simp [eraseKeys, List.foldl_cons]
    rw [step, ih (aerase k0 l) (keysNodup_aerase k0 l h)]
    by_cases hk : k ∈ ks
    · simp [hk]
    · by_cases hk0 : k = k0
      · subst hk0
        simp [hk, alookup_aerase_self k l h]
      · simp [hk, hk0, alookup_aerase_ne k0 k l hk0]

theorem keysNodup_eraseKeys (ks : List κ) (l : List (κ × α)) (h : keysNodup l) :
    keysNodup (eraseKeys ks l) := by
  induction ks generalizing l with
  | nil => simpa [eraseKeys] using h
  | cons k0 ks ih =>
    have step : eraseKeys (k0 :: ks) l = eraseKeys ks (aerase k0 l) := by
      simp [eraseKeys, List.foldl_cons]
    rw [step]
    exact ih (aerase k0 l) (keysNodup_aerase k0 l h)

theorem length_eraseKeys (ks : List κ) (l : List (κ × α)) (hl : keysNodup l)
    (hks : ks.Nodup) (hall : ∀ k ∈ ks, (alookup k l).isSome) :
    (eraseKeys ks l).length + ks.length = l.length := by
  induction ks generalizing l with
  | nil => simp [eraseKeys]
  | cons k0 ks ih =>
    have step : eraseKeys (k0 :: ks) l = eraseKeys ks (aerase k0 l) := by
      simp [eraseKeys, List.foldl_cons]
    rw [step]
    simp only [List.nodup_cons] at hks
    have h0 : (alookup k0 l).isSome := hall k0 (List.mem_cons_self _ _)
    rcases Option.isSome_iff_exists.mp h0 with ⟨w, hw⟩
    have hlen := length_aerase_some k0 w l hw
    have hrest : ∀ k ∈ ks, (alookup k (aerase k0 l)).isSome := by
      intro k hk
      rw [alookup_aerase_ne k0 k l (fun he => hks.1 (he ▸ hk))]
      exact hall k (List.mem_cons_of_mem _ hk)
    have := ih (aerase k0 l) (keysNodup_aerase k0 l hl) hks.2 hrest
    simp only [List.length_cons]
    omega

end AssocLemmas

/-! ## Configuration constants (src/server/config/constants.js) -/

/-- Session TTL: 5 hours in milliseconds (`SESSION_CONFIG.TTL_MS`). -/
def TTL_MS : Nat := 5 * 60 * 60 * 1000

/-- Maximum files per session (`SESSION_CONFIG.MAX_FILES_PER_SESSION`). -/
def MAX_FILES_PER_SESSION : Nat := 100

/-- Maximum text messages per session (`SESSION_CONFIG.MAX_MESSAGES_PER_SESSION`). -/
def MAX_MESSAGES_PER_SESSION : Nat := 500

/-- Maximum file size: 100MB (`FILE_CONFIG.MAX_SIZE_BYTES`). -/
def MAX_SIZE_BYTES : Nat := 100 * 1024 * 1024

/-- Maximum total memory usage: 2GB (`MEMORY_CONFIG.MAX_TOTAL_BYTES`). -/
def MAX_TOTAL_BYTES : Nat := 2 * 1024 * 1024 * 1024

/-! ## Data model (src/server/storage/memory-store.js) -/

/-- The `FileData` record stored in `session.files` by `MemoryStore.addFile`. -/
structure FileRec where
  id : String
  buffer : List Nat
  mimeType : String
  filename : List Char
  size : Nat
  uploadedAt : Nat
  uploadedBy : String
deriving Repr, DecidableEq

/-- A message object created by `MessageService.sendMessage`
(src/server/services/message-service-impl.js). -/
structure MessageRec where
  id : String
  content : List Char
  sentBy : String
  sentByName : String
  sentAt : Nat
  sessionId : String
deriving Repr, DecidableEq

/-- A session as built by `MemoryStore.createSession`.  `messages` starts out
undefined in the JS object and is lazily initialised to `[]` by the message
service; an empty list is observationally identical, so it is a plain list
here.  `creatorId` is read by `MessageService.canDeleteMessage` but never
assigned anywhere in the repository, i.e. it is always `undefined`; it is
modelled as an `Option String` that `createSession` sets to `none`. -/
structure Session where
  id : String
  createdAt : Nat
  expiresAt : Nat
  files : List (String × FileRec)
  members : List String
  messages : List MessageRec
  creatorId : Option String
deriving Repr, DecidableEq

/-- The `MemoryStore` singleton: `sessions`, `totalMemoryUsage`,
`socketToSession`.  `totalMemoryUsage` is an `Int` because the JS number is
freely incremented and decremented. -/
structure Store where
  sessions : List (String × Session)
  totalMemoryUsage : Int
  socketToSession : List (String × String)
deriving Repr, DecidableEq

/-- The store at server start (`new MemoryStore()`). -/
def emptyStore : Store := ⟨[], 0, []⟩

/-- Sum of `file.size` over one session's files. -/
def sessionBytes (s : Session) : Nat := sumVals (fun f => f.size) s.files

/-- Sum of `file.size` over all files of all sessions. -/
def storedBytes (st : Store) : Nat := sumVals sessionBytes st.sessions

/-! ## MemoryStore operations (src/server/storage/memory-store.js) -/

/-- `MemoryStore.createSession(sessionId)`: register a fresh session with
`createdAt = now`, `expiresAt = now + TTL_MS`, empty files and members. -/
def createSession (now : Nat) (sessionId : String) (st : Store) : Session × Store :=
  let session : Session := ⟨sessionId, now, now + TTL_MS, [], [], [], none⟩
  (session, { st with sessions := aset sessionId session st.sessions })

/-- `MemoryStore.deleteSession(sessionId)`: subtract every file's size from
`totalMemoryUsage`, drop the socket mapping of every member, remove the
session.  Returns `false` when the session does not exist. -/
def deleteSession (sessionId : String) (st : Store) : Bool × Store :=
  match alookup sessionId st.sessions with
  | none => (false, st)
  | some s =>
    (true,
      { sessions := aerase sessionId st.sessions,
        totalMemoryUsage := st.totalMemoryUsage - (sessionBytes s : Int),
        socketToSession := eraseKeys s.members st.socketToSession })

/-- `MemoryStore.getSession(sessionId)`: `null` when absent; when
`Date.now() > session.expiresAt` the session is deleted transparently and
`null` is returned, otherwise the session. -/
def getSession (now : Nat) (sessionId : String) (st : Store) : Option Session × Store :=
  match alookup sessionId st.sessions with
  | none => (none, st)
  | some s =>
    if now > s.expiresAt then (none, (deleteSession sessionId st).2)
    else (some s, st)

/-- `MemoryStore.addMember(sessionId, socketId)`: add the socket to the
session's member set and point `socketToSession` at this session.  Note that
a previous binding of the socket is only overwritten in the map; the socket
is not removed from the member set of a previously joined session. -/
def addMember (now : Nat) (sessionId socketId : String) (st : Store) : Bool × Store :=
  match getSession now sessionId st with
  | (none, st1) => (false, st1)
  | (some s, st1) =>
    (true,
      { st1 with
        sessions := aset sessionId { s with members := setAdd socketId s.members } st1.sessions,
        socketToSession := aset socketId sessionId st1.socketToSession })

/-- `MemoryStore.removeMember(socketId)`: look the socket's session up in
`socketToSession` (no expiry check — raw `sessions.get`), remove the socket
from its member set and drop the binding; returns the session id. -/
def removeMember (socketId : String) (st : Store) : Option String × Store :=
  match alookup socketId st.socketToSession with
  | none => (none, st)
  | some sessionId =>
    let sessions2 :=
      match alookup sessionId st.sessions with
      | none => st.sessions
      | some s => aset sessionId { s with members := s.members.erase socketId } st.sessions
    (some sessionId,
      { st with sessions := sessions2, socketToSession := aerase socketId st.socketToSession })

/-- Error cases of `MemoryStore.addFile`, in the order the code checks them. -/
inductive StoreError
  | sessionNotFound
  | maxFilesReached
  | fileTooLarge
  | memoryLimit
deriving Repr, DecidableEq

/-- Payload handed to `MemoryStore.addFile` (the `fileData` argument). -/
structure FileInput where
  buffer : List Nat
  mimeType : String
  filename : List Char
  uploadedBy : String
deriving Repr, DecidableEq

/-- `MemoryStore.addFile(sessionId, fileId, fileData)`: validates session
liveness, the per-session file cap, the per-file size cap and the global
memory budget (`hasAvailableMemory`), then stores the record with
`size = buffer.length` and adds that size to `totalMemoryUsage`.  The JS
fallback `fileData.filename || 'file-' + fileId` fires on the empty (falsy)
string. -/
def addFile (now : Nat) (sessionId fileId : String) (fd : FileInput) (st : Store) :
    Except StoreError FileRec × Store :=
  match getSession now sessionId st with
  | (none, st1) => (.error .sessionNotFound, st1)
  | (some s, st1) =>
    if s.files.length ≥ MAX_FILES_PER_SESSION then (.error .maxFilesReached, st1)
    else if fd.buffer.length > MAX_SIZE_BYTES then (.error .fileTooLarge, st1)
    else if (MAX_TOTAL_BYTES : Int) < st1.totalMemoryUsage + (fd.buffer.length : Int) then
      (.error .memoryLimit, st1)
    else
      let file : FileRec :=
        ⟨fileId, fd.buffer, fd.mimeType,
          (if fd.filename = [] then ("file-" ++ fileId).data else fd.filename),
          fd.buffer.length, now, fd.uploadedBy⟩
      (.ok file,
        { st1 with
          sessions := aset sessionId { s with files := aset fileId file s.files } st1.sessions,
          totalMemoryUsage := st1.totalMemoryUsage + (file.size : Int) })

/-- `MemoryStore.getFileWithBuffer(sessionId, fileId)`: the stored record, or
`null` when the session or file is absent. -/
def getFileWithBuffer (now : Nat) (sessionId fileId : String) (st : Store) :
    Option FileRec × Store :=
  match getSession now sessionId st with
  | (none, st1) => (none, st1)
  | (some s, st1) => (alookup fileId s.files, st1)

/-- `MemoryStore.deleteFile(sessionId, fileId)`: subtract the file's size
from `totalMemoryUsage` and remove the record. -/
def deleteFile (now : Nat) (sessionId fileId : String) (st : Store) : Bool × Store :=
  match getSession now sessionId st with
  | (none, st1) => (false, st1)
  | (some s, st1) =>
    match alookup fileId s.files with
    | none => (false, st1)
    | some f =>
      (true,
        { st1 with
          sessions := aset sessionId { s with files := aerase fileId s.files } st1.sessions,
          totalMemoryUsage := st1.totalMemoryUsage - (f.size : Int) })

/-- `MemoryStore.getExpiredSessions()`: ids of sessions with `now > expiresAt`. -/
def getExpiredSessions (now : Nat) (st : Store) : List String :=
  (st.sessions.filter (fun p => now > p.2.expiresAt)).map (fun p => p.1)

/-- The TTL sweep of `CleanupService.runCleanup`
(src/server/services/cleanup-service.js): delete every expired session.  The
subsequent memory-pressure phase (`handleMemoryPressure`) only performs
further `deleteSession` calls, which the step relation below covers
separately. -/
def runCleanup (now : Nat) (st : Store) : Store :=
  (getExpiredSessions now st).foldl (fun acc sid => (deleteSession sid acc).2) st

/-! ## Message service (src/server/services/message-service-impl.js)

This is the JavaScript message service wired into the socket handler (its
4-argument `sendMessage` matches the handler's call site; the TypeScript
`message-service.ts` twin takes a fifth `sessions` argument and is not
imported). -/

/-- Whitespace for `String.prototype.trim` (ASCII part; the concrete inputs
used below contain no exotic whitespace). -/
def isJsWhitespace (c : Char) : Bool :=
  c = ' ' || c = '\t' || c = '\n' || c = '\r' || c = '\x0b' || c = '\x0c'

/-- `content.trim()`: strip leading and trailing whitespace. -/
def jsTrim (l : List Char) : List Char :=
  ((l.dropWhile isJsWhitespace).reverse.dropWhile isJsWhitespace).reverse

/-- Error cases thrown by the message service, in source order. -/
inductive MsgError
  | sessionNotFound
  | contentRequired
  | contentEmpty
  | messageCapReached
  | messageNotFound
deriving Repr, DecidableEq

/-- `MessageService.sendMessage(sessionId, content, senderId, senderName)`:
validate the session, reject falsy (empty) content, reject content that is
empty after trimming, enforce the 500-message cap, then push the message
with trimmed content.  The source performs no upper length check on the
content. -/
def sendMessage (now : Nat) (sessionId : String) (content : List Char)
    (senderId senderName msgId : String) (st : Store) :
    Except MsgError MessageRec × Store :=
  match getSession now sessionId st with
  | (none, st1) => (.error .sessionNotFound, st1)
  | (some s, st1) =>
    if content = [] then (.error .contentRequired, st1)
    else
      let trimmedContent := jsTrim content
      if trimmedContent.length = 0 then (.error .contentEmpty, st1)
      else if s.messages.length ≥ MAX_MESSAGES_PER_SESSION then (.error .messageCapReached, st1)
      else
        let message : MessageRec :=
          ⟨msgId, trimmedContent, senderId,
            (if senderName = "" then "Anonymous" else senderName), now, sessionId⟩
        (.ok message,
          { st1 with
            sessions := aset sessionId { s with messages := s.messages ++ [message] } st1.sessions })

/-- `MessageService.deleteMessage(sessionId, messageId)`: filter the message
out; `Message not found` when nothing was removed. -/
def deleteMessage (now : Nat) (sessionId messageId : String) (st : Store) :
    Except MsgError Unit × Store :=
  match getSession now sessionId st with
  | (none, st1) => (.error .sessionNotFound, st1)
  | (some s, st1) =>
    let remaining := s.messages.filter (fun m => m.id ≠ messageId)
    if remaining.length = s.messages.length then (.error .messageNotFound, st1)
    else (.ok (),
      { st1 with sessions := aset sessionId { s with messages := remaining } st1.sessions })

/-- `MessageService.canDeleteMessage(messageId, userId, sessionId)`: true iff
the message exists and the caller is its sender or equals `session.creatorId`
(which is always `undefined`, modelled as `none`). -/
def canDeleteMessage (now : Nat) (messageId userId sessionId : String) (st : Store) :
    Bool × Store :=
  match getSession now sessionId st with
  | (none, st1) => (false, st1)
  | (some s, st1) =>
    match s.messages.find? (fun m => m.id == messageId) with
    | none => (false, st1)
    | some m => ((m.sentBy == userId) || (s.creatorId == some userId), st1)

/-! ## Chunk upload service (src/server/services/message-service-impl.js,
`ChunkService`) -/

/-- The per-upload state created by `ChunkService.startUpload`. -/
structure UploadState where
  uploadId : String
  sessionId : String
  filename : String
  mimeType : String
  size : Nat
  totalChunks : Nat
  chunks : List (Int × List Nat)
  receivedChunks : Nat
  startedAt : Nat
  lastActivityAt : Nat
  completed : Bool
  completedAt : Option Nat
deriving Repr, DecidableEq

/-- The `ChunkService.uploads` map. -/
abbrev ChunkStore := List (String × UploadState)

/-- Acknowledgement of `ChunkService.processChunk`, mirroring its
`{success, receivedChunks, totalChunks, isComplete, duplicate?}` and error
shapes in source order. -/
inductive ChunkAck
  | uploadNotFound
  | alreadyCompleted
  | invalidChunkIndex (idx : Int) (total : Nat)
  | ok (receivedChunks totalChunks : Nat) (isComplete duplicate : Bool)
deriving Repr, DecidableEq

/-- `ChunkService.startUpload(sessionId, metadata)`: reject when the session
already has `maxConcurrentUploads = 5` incomplete uploads, else register a
fresh upload state with an empty chunks table. -/
def startUpload (now : Nat) (sessionId uploadId : String)
    (filename mimeType : String) (size totalChunks : Nat)
    (uploads : ChunkStore) : Except Unit String × ChunkStore :=
  let sessionUploads :=
    uploads.filter (fun p => p.2.sessionId == sessionId && !p.2.completed)
  if sessionUploads.length ≥ 5 then (.error (), uploads)
  else
    (.ok uploadId,
      aset uploadId
        ⟨uploadId, sessionId, filename, mimeType, size, totalChunks, [], 0, now, now, false, none⟩
        uploads)

/-- `ChunkService.processChunk(uploadId, chunkIndex, chunkData)`: not-found
and already-completed checks, then the idempotency check (`chunks.has`)
BEFORE index validation; a duplicate is acknowledged as success with
`duplicate: true` and `isComplete: false`, leaving the state untouched;
otherwise the chunk is stored, `receivedChunks` incremented and
`lastActivityAt` refreshed. -/
def processChunk (now : Nat) (uploadId : String) (chunkIndex : Int) (chunkData : List Nat)
    (uploads : ChunkStore) : ChunkAck × ChunkStore :=
  match alookup uploadId uploads with
  | none => (.uploadNotFound, uploads)
  | some up =>
    if up.completed then (.alreadyCompleted, uploads)
    else if (alookup chunkIndex up.chunks).isSome then
      (.ok up.receivedChunks up.totalChunks false true, uploads)
    else if chunkIndex < 0 || (up.totalChunks : Int) ≤ chunkIndex then
      (.invalidChunkIndex chunkIndex up.totalChunks, uploads)
    else
      let up2 := { up with
        chunks := aset chunkIndex chunkData up.chunks,
        receivedChunks := up.receivedChunks + 1,
        lastActivityAt := now }
      (.ok up2.receivedChunks up2.totalChunks (up2.receivedChunks == up2.totalChunks) false,
        aset uploadId up2 uploads)

/-- Ascending collection of chunks `i, i+1, …` (the `for` loop of
`ChunkService.assembleFile`); returns the first missing index. -/
def collectFrom (chunks : List (Int × List Nat)) : Nat → Nat → Except Nat (List (List Nat))
  | _, 0 => .ok []
  | i, n + 1 =>
    match alookup (i : Int) chunks with
    | none => .error i
    | some c =>
      match collectFrom chunks (i + 1) n with
      | .error j => .error j
      | .ok rest => .ok (c :: rest)

/-- Result of `ChunkService.assembleFile`, mirroring its error strings in
source order; `ok` carries the assembled buffer, the declared metadata and
the `setTimeout` removal delay (60 000 ms) scheduled on success. -/
inductive AssembleResult
  | uploadNotFound
  | incomplete (received total : Nat)
  | missingChunk (i : Nat)
  | sizeMismatch (expected got : Nat)
  | ok (buffer : List Nat) (filename mimeType : String) (size : Nat) (removeAfterMs : Nat)
deriving Repr, DecidableEq

/-- `ChunkService.assembleFile(uploadId)`: fail on a missing upload; fail
`incomplete` when `receivedChunks !== totalChunks`; concatenate chunks
`0 … totalChunks-1` (first missing index → `Missing chunk i.`); fail
`sizeMismatch` when the assembled length differs from the declared size;
otherwise mark the upload completed, clear its chunks table, schedule
removal after 60 s and return the buffer plus declared metadata. -/
def assembleFile (now : Nat) (uploadId : String) (uploads : ChunkStore) :
    AssembleResult × ChunkStore :=
  match alookup uploadId uploads with
  | none => (.uploadNotFound, uploads)
  | some up =>
    if up.receivedChunks ≠ up.totalChunks then
      (.incomplete up.receivedChunks up.totalChunks, uploads)
    else
      match collectFrom up.chunks 0 up.totalChunks with
      | .error i => (.missingChunk i, uploads)
      | .ok parts =>
        let buffer := parts.flatten
        if buffer.length ≠ up.size then (.sizeMismatch up.size buffer.length, uploads)
        else
          (.ok buffer up.filename up.mimeType up.size 60000,
            aset uploadId
              { up with completed := true, completedAt := some now, chunks := [] }
              uploads)

/-! ## Security utilities (src/unnamed/part_013, `utils/security.js`) -/

/-- One character of the validation class `[A-Z2-9]` under the `i` flag:
any Latin letter, or a digit `2`–`9`. -/
def isSessionIdChar (c : Char) : Bool :=
  (('A' ≤ c && c ≤ 'Z') || ('a' ≤ c && c ≤ 'z')) || ('2' ≤ c && c ≤ '9')

/-- `isValidSessionIdFormat(sessionId)`: falsy strings are rejected, then the
test `/^[A-Z2-9]{5}$/i`. -/
def isValidSessionIdFormat (s : String) : Bool :=
  if s = "" then false
  else s.length == 5 && s.data.all isSessionIdChar

/-- One hexadecimal character under the `i` flag (`[a-f0-9]` case-insensitive). -/
def isHexChar (c : Char) : Bool :=
  (('0' ≤ c && c ≤ '9') || ('a' ≤ c && c ≤ 'f')) || ('A' ≤ c && c ≤ 'F')

/-- `isValidFileIdFormat(fileId)`: falsy strings are rejected, then the test
`/^[a-f0-9]{32}$/i`. -/
def isValidFileIdFormat (s : String) : Bool :=
  if s = "" then false
  else s.length == 32 && s.data.all isHexChar

/-- Modelled from the spec: `ValidSessionCode(s)` as §4.1 states it — a
case-insensitive match of `^[A-HJ-NP-Z2-9]{5}$`, i.e. five characters from
the 32-symbol alphabet that excludes `0`, `O`, `1` and `I`.  Kept separate
from `isValidSessionIdFormat`, which embeds the source's regex, so the two
can be compared. -/
def specValidSessionCode (s : String) : Bool :=
  s.length == 5 && s.data.all (fun c =>
    let u := c.toUpper
    ((('A' ≤ u && u ≤ 'H') || ('J' ≤ u && u ≤ 'N')) || ('P' ≤ u && u ≤ 'Z')) ||
      ('2' ≤ c && c ≤ '9'))

/-- The global replace of `/\.\./g` in `sanitizeFilename`: drop non-overlapping
`..` pairs left to right. -/
def stripDotDot : List Char → List Char
  | '.' :: '.' :: rest => stripDotDot rest
  | c :: rest => c :: stripDotDot rest
  | [] => []

/-- `sanitizeFilename(filename)`: `'unnamed'` for falsy input, else remove
path separators, then null bytes, then `..` sequences, then truncate to 255
characters. -/
def sanitizeFilename : Option (List Char) → List Char
  | none => "unnamed".data
  | some l =>
    if l = [] then "unnamed".data
    else
      (stripDotDot (((l.filter (fun c => !(c = '/' || c = '\\'))).filter
        (fun c => !(c = '\x00'))))).take 255

/-! ## File service (src/server/services/file-service.js) -/

/-- `FileService.getExtension(mimeType)`: the extension table. -/
def getExtension (mimeType : String) : String :=
  if mimeType = "image/jpeg" then ".jpg"
  else if mimeType = "image/png" then ".png"
  else if mimeType = "image/gif" then ".gif"
  else if mimeType = "image/webp" then ".webp"
  else if mimeType = "image/svg+xml" then ".svg"
  else if mimeType = "image/bmp" then ".bmp"
  else if mimeType = "image/heic" then ".heic"
  else if mimeType = "image/heif" then ".heif"
  else if mimeType = "video/mp4" then ".mp4"
  else if mimeType = "video/webm" then ".webm"
  else if mimeType = "video/quicktime" then ".mov"
  else if mimeType = "video/x-msvideo" then ".avi"
  else if mimeType = "video/x-matroska" then ".mkv"
  else if mimeType = "application/pdf" then ".pdf"
  else if mimeType = "application/msword" then ".doc"
  else if mimeType = "application/vnd.openxmlformats-officedocument.wordprocessingml.document" then ".docx"
  else if mimeType = "application/vnd.ms-excel" then ".xls"
  else if mimeType = "application/vnd.openxmlformats-officedocument.spreadsheetml.sheet" then ".xlsx"
  else if mimeType = "application/vnd.ms-powerpoint" then ".ppt"
  else if mimeType = "application/vnd.openxmlformats-officedocument.presentationml.presentation" then ".pptx"
  else if mimeType = "text/plain" then ".txt"
  else if mimeType = "text/csv" then ".csv"
  else if mimeType = "application/zip" then ".zip"
  else if mimeType = "application/x-rar-compressed" then ".rar"
  else if mimeType = "application/x-7z-compressed" then ".7z"
  else if mimeType = "application/x-tar" then ".tar"
  else if mimeType = "application/gzip" then ".gz"
  else if mimeType = "audio/mpeg" then ".mp3"
  else if mimeType = "audio/wav" then ".wav"
  else if mimeType = "audio/ogg" then ".ogg"
  else if mimeType = "audio/webm" then ".weba"
  else if mimeType = "application/json" then ".json"
  else if mimeType = "application/xml" then ".xml"
  else if mimeType = "text/html" then ".html"
  else if mimeType = "text/css" then ".css"
  else if mimeType = "text/javascript" then ".js"
  else if mimeType = "application/octet-stream" then ".bin"
  else ""

/-- Errors of `FileService.uploadFile`, in source order (`Invalid file data`
for a non-Buffer is unrepresentable here since buffers are typed). -/
inductive UploadError
  | tooLarge
  | emptyFile
  | store (e : StoreError)
deriving Repr, DecidableEq

/-- `FileService.uploadFile(sessionId, fileBuffer, metadata, uploadedBy)`:
size and emptiness checks, MIME default, filename sanitisation with the
`file-<now><ext>` fallback and extension completion, then
`memoryStore.addFile`. -/
def uploadFile (now : Nat) (sessionId : String) (fileBuffer : List Nat)
    (mimeType : Option String) (filename : Option (List Char))
    (uploadedBy fileId : String) (st : Store) : Except UploadError FileRec × Store :=
  if fileBuffer.length > MAX_SIZE_BYTES then (.error .tooLarge, st)
  else if fileBuffer.length = 0 then (.error .emptyFile, st)
  else
    let mt := mimeType.getD "application/octet-stream"
    let fn0 := sanitizeFilename filename
    let fn1 := if fn0 = [] then ("file-" ++ toString now).data ++ (getExtension mt).data else fn0
    let fn2 := if fn1.contains '.' then fn1 else fn1 ++ (getExtension mt).data
    match addFile now sessionId fileId ⟨fileBuffer, mt, fn2, uploadedBy⟩ st with
    | (.error e, st1) => (.error (.store e), st1)
    | (.ok f, st1) => (.ok f, st1)

/-! ## Socket handler upload and download paths
(src/server/socket/socket-handler.js) -/

/-- Return shape of `ImageOptimizationService.optimizeImage`: the (possibly
recompressed) buffer, and whether an `error` field is present (in which case
the caller keeps the original buffer).  The service itself wraps the external
`sharp` library and is out of the embedded core; handlers take the optimizer
as an explicit function argument. -/
structure OptimizeOutcome where
  buffer : List Nat
  isError : Bool
deriving Repr, DecidableEq

/-- `ImageOptimizationService.shouldOptimize(mimeType, size)`: images larger
than 500KB (`mimeType.startsWith('image/')`, embedded as a code-point
prefix test so it evaluates in the kernel). -/
def shouldOptimize (mimeType : String) (size : Nat) : Bool :=
  ("image/".data).isPrefixOf mimeType.data && size > 500 * 1024

/-- Errors of the `file:upload` handler before/around `uploadFile`. -/
inductive HandlerError
  | notJoined
  | sessionExpired
  | fileTooLarge
  | upload (e : UploadError)
deriving Repr, DecidableEq

/-- The `SOCKET_EVENTS.UPLOAD_FILE` handler: resolve the caller's session
binding, validate the session, check the declared size (`size ||
buffer.byteLength`) against 100MB, run the image optimizer when
`shouldOptimize` holds (keeping the original buffer if optimization
errored), then `fileService.uploadFile` with the defaulted MIME type and
`filename || 'unnamed-file'`. -/
def uploadFileHandler (opt : List Nat → String → OptimizeOutcome)
    (now : Nat) (socketId : String) (buffer : List Nat) (mimeType : Option String)
    (filename : Option (List Char)) (declaredSize : Option Nat) (fileId : String)
    (st : Store) : Except HandlerError FileRec × Store :=
  match alookup socketId st.socketToSession with
  | none => (.error .notJoined, st)
  | some sessionId =>
    match getSession now sessionId st with
    | (none, st1) => (.error .sessionExpired, st1)
    | (some _, st1) =>
      let fileSize :=
        match declaredSize with
        | some n => if n ≠ 0 then n else buffer.length
        | none => buffer.length
      if fileSize > 100 * 1024 * 1024 then (.error .fileTooLarge, st1)
      else
        let fileMimeType := mimeType.getD "application/octet-stream"
        let fileBuffer :=
          if shouldOptimize fileMimeType buffer.length then
            let o := opt buffer fileMimeType
            if o.isError then buffer else o.buffer
          else buffer
        let fn :=
          match filename with
          | some l => if l = [] then some ("unnamed-file".data) else some l
          | none => some ("unnamed-file".data)
        match uploadFile now sessionId fileBuffer (some fileMimeType) fn socketId fileId st1 with
        | (.error e, st2) => (.error (.upload e), st2)
        | (.ok f, st2) => (.ok f, st2)

/-- The `SOCKET_EVENTS.REQUEST_FILE` handler: resolve the caller's session
binding, validate the file id shape, then `fileService.getFile`
(= `memoryStore.getFileWithBuffer`); `none` collapses the handler's distinct
error acks. -/
def requestFileHandler (now : Nat) (socketId fileId : String) (st : Store) :
    Option FileRec × Store :=
  match alookup socketId st.socketToSession with
  | none => (none, st)
  | some sessionId =>
    if isValidFileIdFormat fileId then getFileWithBuffer now sessionId fileId st
    else (none, st)

/-! ## Reachable states of the MemoryStore

The step relation covers every mutating entry point of the store.  Session
codes and file ids are produced by `generateSessionId` / `generateFileId`
from crypto randomness; the service layer relies on them being fresh
(§4.2 "generate a fresh, non-colliding code"), so the corresponding steps
carry a freshness hypothesis.  Reader methods (`getSessionInfo`,
`getFileMetadata`, `getFileWithBuffer`, `canDeleteMessage`, …) mutate the
store only through their internal `getSession` call, which the `getSession`
step covers; `cleanupSession` and the memory-pressure eviction of the
cleanup service are `deleteSession` calls. -/
inductive Step : Store → Store → Prop
  | createSession (now : Nat) (sid : String) (st : Store)
      (hfresh : alookup sid st.sessions = none) :
      Step st (createSession now sid st).2
  | getSession (now : Nat) (sid : String) (st : Store) :
      Step st (getSession now sid st).2
  | deleteSession (sid : String) (st : Store) :
      Step st (deleteSession sid st).2
  | addMember (now : Nat) (sid sock : String) (st : Store) :
      Step st (addMember now sid sock st).2
  | removeMember (sock : String) (st : Store) :
      Step st (removeMember sock st).2
  | addFile (now : Nat) (sid fid : String) (fd : FileInput) (st : Store)
      (hfresh : ∀ s, alookup sid st.sessions = some s → alookup fid s.files = none) :
      Step st (addFile now sid fid fd st).2
  | deleteFile (now : Nat) (sid fid : String) (st : Store) :
      Step st (deleteFile now sid fid st).2
  | sendMessage (now : Nat) (sid : String) (content : List Char)
      (senderId senderName msgId : String) (st : Store) :
      Step st (sendMessage now sid content senderId senderName msgId st).2
  | deleteMessage (now : Nat) (sid mid : String) (st : Store) :
      Step st (deleteMessage now sid mid st).2
  | runCleanup (now : Nat) (st : Store) :
      Step st (runCleanup now st)

/-- States reachable from the freshly constructed store. -/
inductive Reachable : Store → Prop
  | init : Reachable emptyStore
  | step {st st2 : Store} : Reachable st → Step st st2 → Reachable st2

/-- The byte-conservation invariant: `totalMemoryUsage` equals the sum of
`file.size` over all files of all sessions. -/
def bytesInvariant (st : Store) : Prop :=
  st.totalMemoryUsage = (storedBytes st : Int)

theorem getSession_some (now : Nat) (sid : String) (st : Store) (s : Session)
    (st1 : Store) (h : getSession now sid st = (some s, st1)) :
    st1 = st ∧ alookup sid st.sessions = some s ∧ now ≤ s.expiresAt := by
  unfold getSession at h
  cases hl : alookup sid st.sessions with
  | none => rw [hl] at h; simp at h
  | some s0 =>
    rw [hl] at h
    dsimp only at h
    by_cases he : now > s0.expiresAt
    · rw [if_pos he] at h; simp at h
    · rw [if_neg he] at h
      simp only [Prod.mk.injEq, Option.some.injEq] at h
      obtain ⟨h1, h2⟩ := h
      subst h1
      exact ⟨h2.symm, rfl, by omega⟩

theorem getSession_none (now : Nat) (sid : String) (st : Store) (st1 : Store)
    (h : getSession now sid st = (none, st1)) :
    st1 = st ∨ st1 = (deleteSession sid st).2 := by
  unfold getSession at h
  cases hl : alookup sid st.sessions with
  | none => rw [hl] at h; simp at h; exact Or.inl h.symm
  | some s0 =>
    rw [hl] at h
    dsimp only at h
    by_cases he : now > s0.expiresAt
    · rw [if_pos he] at h
      simp only [Prod.mk.injEq] at h
      exact Or.inr h.2.symm
    · rw [if_neg he] at h; simp at h

theorem bytesInvariant_deleteSession (sid : String) (st : Store)
    (h : bytesInvariant st) : bytesInvariant (deleteSession sid st).2 := by
  unfold deleteSession
  cases hl : alookup sid st.sessions with
  | none => exact h
  | some s =>
    have hsum := sumVals_aerase_some sessionBytes sid s st.sessions hl
    simp only [bytesInvariant, storedBytes] at h ⊢
    simp only [storedBytes] at hsum
    omega

theorem bytesInvariant_getSession (now : Nat) (sid : String) (st : Store)
    (h : bytesInvariant st) : bytesInvariant (getSession now sid st).2 := by
  unfold getSession
  cases hl : alookup sid st.sessions with
  | none => exact h
  | some s =>
    by_cases he : now > s.expiresAt
    · simp only [if_pos he]
      exact bytesInvariant_deleteSession sid st h
    · simp only [if_neg he]
      exact h

theorem bytesInvariant_aset_sameBytes (sid : String) (s s2 : Session) (st : Store)
    (hl : alookup sid st.sessions = some s) (hb : sessionBytes s2 = sessionBytes s)
    (h : bytesInvariant st) :
    bytesInvariant { st with sessions := aset sid s2 st.sessions } := by
  have hsum := sumVals_aset_some sessionBytes sid s2 s st.sessions hl
  simp only [bytesInvariant, storedBytes] at h ⊢
  simp only [storedBytes] at hsum
  omega

theorem bytesInvariant_runCleanup (now : Nat) (st : Store)
    (h : bytesInvariant st) : bytesInvariant (runCleanup now st) := by
  unfold runCleanup
  generalize getExpiredSessions now st = ids
  induction ids generalizing st with
  | nil => simpa using h
  | cons sid ids ih =>
    simp only [List.foldl_cons]
    exact ih (deleteSession sid st).2 (bytesInvariant_deleteSession sid st h)

theorem bytesInvariant_createSession (now : Nat) (sid : String) (st : Store)
    (hfresh : alookup sid st.sessions = none) (h : bytesInvariant st) :
    bytesInvariant (createSession now sid st).2 := by
  unfold createSession
  have hsum := sumVals_aset_none sessionBytes sid
    (⟨sid, now, now + TTL_MS, [], [], [], none⟩ : Session) st.sessions hfresh
  simp only [bytesInvariant, storedBytes] at h ⊢
  simp only [storedBytes] at hsum
  have hz : sessionBytes (⟨sid, now, now + TTL_MS, [], [], [], none⟩ : Session) = 0 := rfl
  rw [hz] at hsum
  omega

theorem bytesInvariant_addFile_delta (sid fid : String) (file : FileRec) (s : Session)
    (st : Store) (h2 : alookup sid st.sessions = some s)
    (hffresh : alookup fid s.files = none) (h : bytesInvariant st) :
    bytesInvariant { st with
      sessions := aset sid { s with files := aset fid file s.files } st.sessions,
      totalMemoryUsage := st.totalMemoryUsage + (file.size : Int) } := by
  have hinner := sumVals_aset_none (fun f : FileRec => f.size) fid file s.files hffresh
  have houter := sumVals_aset_some sessionBytes sid
    { s with files := aset fid file s.files } s st.sessions h2
  simp only [bytesInvariant, storedBytes] at h ⊢
  simp only [storedBytes] at houter
  have hsb : sessionBytes { s with files := aset fid file s.files } =
      sessionBytes s + file.size := by
    simpa [sessionBytes] using hinner
  rw [hsb] at houter
  omega

theorem bytesInvariant_deleteFile_delta (sid fid : String) (f : FileRec) (s : Session)
    (st : Store) (h2 : alookup sid st.sessions = some s)
    (hf : alookup fid s.files = some f) (h : bytesInvariant st) :
    bytesInvariant { st with
      sessions := aset sid { s with files := aerase fid s.files } st.sessions,
      totalMemoryUsage := st.totalMemoryUsage - (f.size : Int) } := by
  have hinner := sumVals_aerase_some (fun f : FileRec => f.size) fid f s.files hf
  have houter := sumVals_aset_some sessionBytes sid
    { s with files := aerase fid s.files } s st.sessions h2
  simp only [bytesInvariant, storedBytes] at h ⊢
  simp only [storedBytes] at houter
  have hsb : sessionBytes { s with files := aerase fid s.files } + f.size =
      sessionBytes s := by
    simpa [sessionBytes] using hinner
  omega

theorem bytesInvariant_addMember (now : Nat) (sid sock : String) (st : Store)
    (h : bytesInvariant st) : bytesInvariant (addMember now sid sock st).2 := by
  unfold addMember
  rcases hgs : getSession now sid st with ⟨os, st1⟩
  cases os with
  | none =>
    rcases getSession_none now sid st st1 hgs with h1 | h1
    · subst h1; exact h
    · subst h1; exact bytesInvariant_deleteSession sid st h
  | some s =>
    obtain ⟨h1, h2, _⟩ := getSession_some now sid st s st1 hgs
    rw [h1]
    dsimp only
    have := bytesInvariant_aset_sameBytes sid s
      { s with members := setAdd sock s.members } st h2 rfl h
    simpa [bytesInvariant, storedBytes] using this

theorem bytesInvariant_removeMember (sock : String) (st : Store)
    (h : bytesInvariant st) : bytesInvariant (removeMember sock st).2 := by
  unfold removeMember
  rcases hl : alookup sock st.socketToSession with _ | sid
  · exact h
  · dsimp only
    rcases hs : alookup sid st.sessions with _ | s
    · simpa [bytesInvariant, storedBytes] using h
    · have := bytesInvariant_aset_sameBytes sid s
        { s with members := s.members.erase sock } st hs rfl h
      simpa [bytesInvariant, storedBytes] using this

theorem bytesInvariant_addFile (now : Nat) (sid fid : String) (fd : FileInput) (st : Store)
    (hfresh : ∀ s, alookup sid st.sessions = some s → alookup fid s.files = none)
    (h : bytesInvariant st) : bytesInvariant (addFile now sid fid fd st).2 := by
  unfold addFile
  rcases hgs : getSession now sid st with ⟨os, st1⟩
  cases os with
  | none =>
    rcases getSession_none now sid st st1 hgs with h1 | h1
    · subst h1; exact h
    · subst h1; exact bytesInvariant_deleteSession sid st h
  | some s =>
    obtain ⟨h1, h2, _⟩ := getSession_some now sid st s st1 hgs
    rw [h1]
    dsimp only
    by_cases hc1 : s.files.length ≥ MAX_FILES_PER_SESSION
    · simp only [if_pos hc1]; exact h
    by_cases hc2 : fd.buffer.length > MAX_SIZE_BYTES
    · simp only [if_neg hc1, if_pos hc2]; exact h
    by_cases hc3 : (MAX_TOTAL_BYTES : Int) < st.totalMemoryUsage + (fd.buffer.length : Int)
    · simp only [if_neg hc1, if_neg hc2, if_pos hc3]; exact h
    simp only [if_neg hc1, if_neg hc2, if_neg hc3]
    exact bytesInvariant_addFile_delta sid fid _ s st h2 (hfresh s h2) h

theorem bytesInvariant_deleteFile (now : Nat) (sid fid : String) (st : Store)
    (h : bytesInvariant st) : bytesInvariant (deleteFile now sid fid st).2 := by
  unfold deleteFile
  rcases hgs : getSession now sid st with ⟨os, st1⟩
  cases os with
  | none =>
    rcases getSession_none now sid st st1 hgs with h1 | h1
    · subst h1; exact h
    · subst h1; exact bytesInvariant_deleteSession sid st h
  | some s =>
    obtain ⟨h1, h2, _⟩ := getSession_some now sid st s st1 hgs
    rw [h1]
    dsimp only
    rcases hf : alookup fid s.files with _ | f
    · exact h
    · exact bytesInvariant_deleteFile_delta sid fid f s st h2 hf h

theorem bytesInvariant_sendMessage (now : Nat) (sid : String) (content : List Char)
    (senderId senderName msgId : String) (st : Store)
    (h : bytesInvariant st) :
    bytesInvariant (sendMessage now sid content senderId senderName msgId st).2 := by
  unfold sendMessage
  rcases hgs : getSession now sid st with ⟨os, st1⟩
  cases os with
  | none =>
    rcases getSession_none now sid st st1 hgs with h1 | h1
    · subst h1; exact h
    · subst h1; exact bytesInvariant_deleteSession sid st h
  | some s =>
    obtain ⟨h1, h2, _⟩ := getSession_some now sid st s st1 hgs
    rw [h1]
    dsimp only
    by_cases hc1 : content = []
    · simp only [if_pos hc1]; exact h
    by_cases hc2 : (jsTrim content).length = 0
    · simp only [if_neg hc1, if_pos hc2]; exact h
    by_cases hc3 : s.messages.length ≥ MAX_MESSAGES_PER_SESSION
    · simp only [if_neg hc1, if_neg hc2, if_pos hc3]; exact h
    simp only [if_neg hc1, if_neg hc2, if_neg hc3]
    have := bytesInvariant_aset_sameBytes sid s
      { s with messages := s.messages ++
          [⟨msgId, jsTrim content, senderId,
            (if senderName = "" then "Anonymous" else senderName), now, sid⟩] }
      st h2 rfl h
    simpa [bytesInvariant, storedBytes] using this

theorem bytesInvariant_deleteMessage (now : Nat) (sid mid : String) (st : Store)
    (h : bytesInvariant st) : bytesInvariant (deleteMessage now sid mid st).2 := by
  unfold deleteMessage
  rcases hgs : getSession now sid st with ⟨os, st1⟩
  cases os with
  | none =>
    rcases getSession_none now sid st st1 hgs with h1 | h1
    · subst h1; exact h
    · subst h1; exact bytesInvariant_deleteSession sid st h
  | some s =>
    obtain ⟨h1, h2, _⟩ := getSession_some now sid st s st1 hgs
    rw [h1]
    dsimp only
    by_cases hc : (s.messages.filter (fun m => m.id ≠ mid)).length = s.messages.length
    · simp only [if_pos hc]; exact h
    simp only [if_neg hc]
    have := bytesInvariant_aset_sameBytes sid s
      { s with messages := s.messages.filter (fun m => m.id ≠ mid) } st h2 rfl h
    simpa [bytesInvariant, storedBytes] using this

theorem bytesInvariant_step {st st2 : Store} (hstep : Step st st2)
    (h : bytesInvariant st) : bytesInvariant st2 := by
  cases hstep with
  | createSession now sid st hfresh => exact bytesInvariant_createSession now sid st hfresh h
  | getSession now sid st => exact bytesInvariant_getSession now sid st h
  | deleteSession sid st => exact bytesInvariant_deleteSession sid st h
  | addMember now sid sock st => exact bytesInvariant_addMember now sid sock st h
  | removeMember sock st => exact bytesInvariant_removeMember sock st h
  | addFile now sid fid fd st hfresh => exact bytesInvariant_addFile now sid fid fd st hfresh h
  | deleteFile now sid fid st => exact bytesInvariant_deleteFile now sid fid st h
  | sendMessage now sid content senderId senderName msgId st =>
    exact bytesInvariant_sendMessage now sid content senderId senderName msgId st h
  | deleteMessage now sid mid st => exact bytesInvariant_deleteMessage now sid mid st h
  | runCleanup now st => exact bytesInvariant_runCleanup now st h

theorem bytesInvariant_reachable {st : Store} (h : Reachable st) : bytesInvariant st := by
  induction h with
  | init => rfl
  | step _ hstep ih => exact bytesInvariant_step hstep ih

theorem addFile_ok_state (now : Nat) (sid fid : String) (fd : FileInput) (st : Store)
    (f : FileRec) (st2 : Store) (h : addFile now sid fid fd st = (.ok f, st2)) :
    ∃ s, alookup sid st.sessions = some s ∧ now ≤ s.expiresAt ∧
      f = ⟨fid, fd.buffer, fd.mimeType,
        (if fd.filename = [] then ("file-" ++ fid).data else fd.filename),
        fd.buffer.length, now, fd.uploadedBy⟩ ∧
      st2 = { st with
        sessions := aset sid { s with files := aset fid f s.files } st.sessions,
        totalMemoryUsage := st.totalMemoryUsage + (fd.buffer.length : Int) } := by
  unfold addFile at h
  rcases hgs : getSession now sid st with ⟨os, st1⟩
  rw [hgs] at h
  cases os with
  | none => dsimp only at h; exact absurd h (by simp)
  | some s =>
    obtain ⟨h1, h2, h3⟩ := getSession_some now sid st s st1 hgs
    rw [h1] at h
    dsimp only at h
    by_cases hc1 : s.files.length ≥ MAX_FILES_PER_SESSION
    · rw [if_pos hc1] at h; exact absurd h (by simp)
    rw [if_neg hc1] at h
    by_cases hc2 : fd.buffer.length > MAX_SIZE_BYTES
    · rw [if_pos hc2] at h; exact absurd h (by simp)
    rw [if_neg hc2] at h
    by_cases hc3 : (MAX_TOTAL_BYTES : Int) < st.totalMemoryUsage + (fd.buffer.length : Int)
    · rw [if_pos hc3] at h; exact absurd h (by simp)
    rw [if_neg hc3] at h
    simp only [Prod.mk.injEq, Except.ok.injEq] at h
    obtain ⟨hf, hst⟩ := h
    exact ⟨s, h2, h3, hf.symm, by rw [← hst, ← hf]⟩

theorem deleteFile_true_state (now : Nat) (sid fid : String) (st : Store) (st2 : Store)
    (h : deleteFile now sid fid st = (true, st2)) :
    ∃ s f, alookup sid st.sessions = some s ∧ now ≤ s.expiresAt ∧
      alookup fid s.files = some f ∧
      st2 = { st with
        sessions := aset sid { s with files := aerase fid s.files } st.sessions,
        totalMemoryUsage := st.totalMemoryUsage - (f.size : Int) } := by
  unfold deleteFile at h
  rcases hgs : getSession now sid st with ⟨os, st1⟩
  rw [hgs] at h
  cases os with
  | none => dsimp only at h; exact absurd h (by simp)
  | some s =>
    obtain ⟨h1, h2, h3⟩ := getSession_some now sid st s st1 hgs
    rw [h1] at h
    dsimp only at h
    rcases hf : alookup fid s.files with _ | f
    · rw [hf] at h; exact absurd h (by simp)
    · rw [hf] at h
      simp only [Prod.mk.injEq] at h
      exact ⟨s, f, h2, h3, hf, h.2.symm⟩

theorem deleteSession_true_state (sid : String) (st : Store) (st2 : Store)
    (h : deleteSession sid st = (true, st2)) :
    ∃ s, alookup sid st.sessions = some s ∧
      st2 = { sessions := aerase sid st.sessions,
              totalMemoryUsage := st.totalMemoryUsage - (sessionBytes s : Int),
              socketToSession := eraseKeys s.members st.socketToSession } := by
  unfold deleteSession at h
  rcases hl : alookup sid st.sessions with _ | s
  · rw [hl] at h; exact absurd h (by simp)
  · rw [hl] at h
    simp only [Prod.mk.injEq] at h
    exact ⟨s, rfl, h.2.symm⟩

/-- C1: Byte-conservation invariant.  At every reachable state of the
MemoryStore, `totalMemoryUsage` equals the sum of `file.size` over all files
of all sessions; every successful `addFile` increases `totalMemoryUsage` by
exactly the added buffer's length (= the stored `file.size`); every
successful `deleteFile` decreases it by exactly the deleted file's `size`;
every successful `deleteSession` decreases it by exactly the sum of the
session's file sizes. -/
theorem byte_conservation :
    (∀ st, Reachable st → st.totalMemoryUsage = (storedBytes st : Int)) ∧
    (∀ now sid fid fd st f st2, addFile now sid fid fd st = (.ok f, st2) →
      st2.totalMemoryUsage = st.totalMemoryUsage + (fd.buffer.length : Int)) ∧
    (∀ now sid fid st st2 s f, alookup sid st.sessions = some s →
      alookup fid s.files = some f → deleteFile now sid fid st = (true, st2) →
      st2.totalMemoryUsage = st.totalMemoryUsage - (f.size : Int)) ∧
    (∀ sid st st2 s, alookup sid st.sessions = some s →
      deleteSession sid st = (true, st2) →
      st2.totalMemoryUsage = st.totalMemoryUsage - (sessionBytes s : Int)) := by
  refine ⟨fun st h => bytesInvariant_reachable h, ?_, ?_, ?_⟩
  · intro now sid fid fd st f st2 h
    obtain ⟨s, _, _, _, hst⟩ := addFile_ok_state now sid fid fd st f st2 h
    rw [hst]
  · intro now sid fid st st2 s f hs hf h
    obtain ⟨s2, f2, hs2, _, hf2, hst⟩ := deleteFile_true_state now sid fid st st2 h
    rw [hs] at hs2
    obtain rfl : s = s2 := by simpa using hs2
    rw [hf] at hf2
    obtain rfl : f = f2 := by simpa using hf2
    rw [hst]
  · intro sid st st2 s hs h
    obtain ⟨s2, hs2, hst⟩ := deleteSession_true_state sid st st2 h
    rw [hs] at hs2
    obtain rfl : s = s2 := by simpa using hs2
    rw [hst]

/-- Demonstration values for the witnesses: a session created at time 0,
one 3-byte file added at time 5 and deleted at time 6. -/
def demoStore : Store := (createSession 0 "AAAAA" emptyStore).2

def demoInput : FileInput := ⟨[1, 2, 3], "text/plain", ['a'], "s1"⟩

def demoFile : FileRec := ⟨"f1", [1, 2, 3], "text/plain", ['a'], 3, 5, "s1"⟩

def demoStore2 : Store := (addFile 5 "AAAAA" "f1" demoInput demoStore).2

def demoStore3 : Store := (deleteFile 6 "AAAAA" "f1" demoStore2).2

def demoSession2 : Session :=
  ⟨"AAAAA", 0, TTL_MS, [("f1", demoFile)], [], [], none⟩

theorem byte_conservation_witness :
    emptyStore.totalMemoryUsage = (storedBytes emptyStore : Int) ∧
    demoStore2.totalMemoryUsage = demoStore.totalMemoryUsage + ((3 : Nat) : Int) ∧
    demoStore3.totalMemoryUsage = demoStore2.totalMemoryUsage - ((3 : Nat) : Int) ∧
    demoStore3.totalMemoryUsage = demoStore.totalMemoryUsage - (sessionBytes demoSession2 - 3 : Nat) := by
  refine ⟨byte_conservation.1 emptyStore Reachable.init, ?_, ?_, ?_⟩
  · exact byte_conservation.2.1 5 "AAAAA" "f1" demoInput demoStore demoFile demoStore2
      (by rfl)
  · exact byte_conservation.2.2.1 6 "AAAAA" "f1" demoStore2 demoStore3 demoSession2 demoFile
      (by rfl) (by rfl) (by rfl)
  · decide

/-! ## Membership consistency (C2) -/

/-- Sum of `|session.members|` over all sessions. -/
def memberCount (st : Store) : Nat := sumVals (fun s : Session => s.members.length) st.sessions

/-- A connection that joins a second session without leaving the first:
two sessions, one socket joining both. -/
def rebindStore : Store :=
  (addMember 2 "BBBBB" "s1"
    (addMember 1 "AAAAA" "s1"
      (createSession 0 "BBBBB" (createSession 0 "AAAAA" emptyStore).2).2).2).2

/-- C2 counterexample: `rebindStore` is reachable, but it has one entry in
`socketToSession` while the member sets hold the socket twice — `addMember`
overwrote the map binding without removing the socket from the first
session's member set, so the socket is in two member sets at once. -/
theorem membership_consistency_cex :
    Reachable rebindStore ∧
    rebindStore.socketToSession.length = 1 ∧ memberCount rebindStore = 2 ∧
    ¬ (rebindStore.socketToSession.length = memberCount rebindStore) := by
  refine ⟨?_, by decide, by decide, by decide⟩
  exact Reachable.step
    (Reachable.step
      (Reachable.step
        (Reachable.step Reachable.init
          (Step.createSession 0 "AAAAA" emptyStore (by decide)))
        (Step.createSession 0 "BBBBB" (createSession 0 "AAAAA" emptyStore).2 (by decide)))
      (Step.addMember 1 "AAAAA" "s1"
        (createSession 0 "BBBBB" (createSession 0 "AAAAA" emptyStore).2).2))
    (Step.addMember 2 "BBBBB" "s1"
      (addMember 1 "AAAAA" "s1"
        (createSession 0 "BBBBB" (createSession 0 "AAAAA" emptyStore).2).2).2)

theorem setAdd_of_mem {α : Type} [DecidableEq α] (x : α) (l : List α) (h : x ∈ l) :
    setAdd x l = l := by
  simp [setAdd, h]

theorem setAdd_of_not_mem {α : Type} [DecidableEq α] (x : α) (l : List α) (h : x ∉ l) :
    setAdd x l = l ++ [x] := by
  simp [setAdd, h]

theorem setAdd_nodup {α : Type} [DecidableEq α] (x : α) (l : List α) (h : l.Nodup) :
    (setAdd x l).Nodup := by
  by_cases hm : x ∈ l
  · rw [setAdd_of_mem x l hm]; exact h
  · rw [setAdd_of_not_mem x l hm]
    simp [List.nodup_append, h, hm]

theorem mem_setAdd {α : Type} [DecidableEq α] (x y : α) (l : List α) :
    y ∈ setAdd x l ↔ y ∈ l ∨ y = x := by
  by_cases hm : x ∈ l
  · rw [setAdd_of_mem x l hm]
    constructor
    · exact Or.inl
    · rintro (h | h)
      · exact h
      · exact h ▸ hm
  · rw [setAdd_of_not_mem x l hm]
    simp

/-- The invariant tying `socketToSession` to the member sets, together with
the shape facts (no duplicate keys, duplicate-free member sets) that a JS
`Map`/`Set` maintains, and the count equality itself. -/
structure MemInv (st : Store) : Prop where
  sessionsNodup : keysNodup st.sessions
  mapNodup : keysNodup st.socketToSession
  membersNodup : ∀ sid s, alookup sid st.sessions = some s → s.members.Nodup
  boundMem : ∀ sock sid, alookup sock st.socketToSession = some sid →
    ∃ s, alookup sid st.sessions = some s ∧ sock ∈ s.members
  memBound : ∀ sid s sock, alookup sid st.sessions = some s → sock ∈ s.members →
    alookup sock st.socketToSession = some sid
  countEq : st.socketToSession.length = memberCount st

theorem memInv_set_sessions (sid : String) (s s2 : Session) (st st2 : Store)
    (hsess : st2.sessions = aset sid s2 st.sessions)
    (hmap : st2.socketToSession = st.socketToSession)
    (hl : alookup sid st.sessions = some s) (hm : s2.members = s.members)
    (h : MemInv st) : MemInv st2 := by
  refine ⟨?_, ?_, ?_, ?_, ?_, ?_⟩
  · rw [hsess]; exact keysNodup_aset sid s2 st.sessions h.sessionsNodup
  · rw [hmap]; exact h.mapNodup
  · intro sid2 s3 h3
    rw [hsess] at h3
    by_cases he : sid2 = sid
    · subst he
      rw [alookup_aset_self] at h3
      obtain rfl : s2 = s3 := by simpa using h3
      rw [hm]
      exact h.membersNodup sid2 s hl
    · rw [alookup_aset_ne sid sid2 s2 st.sessions he] at h3
      exact h.membersNodup sid2 s3 h3
  · intro sock sid2 hb
    rw [hmap] at hb
    obtain ⟨s3, h3, hmem⟩ := h.boundMem sock sid2 hb
    by_cases he : sid2 = sid
    · subst he
      obtain rfl : s = s3 := by rw [hl] at h3; simpa using h3
      refine ⟨s2, ?_, ?_⟩
      · rw [hsess]; exact alookup_aset_self sid2 s2 st.sessions
      · rw [hm]; exact hmem
    · refine ⟨s3, ?_, hmem⟩
      rw [hsess, alookup_aset_ne sid sid2 s2 st.sessions he]
      exact h3
  · intro sid2 s3 sock h3 hmem
    rw [hsess] at h3
    rw [hmap]
    by_cases he : sid2 = sid
    · subst he
      rw [alookup_aset_self] at h3
      obtain rfl : s2 = s3 := by simpa using h3
      rw [hm] at hmem
      exact h.memBound sid2 s sock hl hmem
    · rw [alookup_aset_ne sid sid2 s2 st.sessions he] at h3
      exact h.memBound sid2 s3 sock h3 hmem
  · rw [hmap]
    have hsum : sumVals (fun s : Session => s.members.length) (aset sid s2 st.sessions) +
        s.members.length =
        sumVals (fun s : Session => s.members.length) st.sessions + s2.members.length :=
      sumVals_aset_some (fun s : Session => s.members.length) sid s2 s st.sessions hl
    have hms : s2.members.length = s.members.length := by rw [hm]
    have heq : memberCount st2 = memberCount st := by
      simp only [memberCount, hsess]
      omega
    rw [heq]
    exact h.countEq

theorem memInv_deleteSession (sid : String) (st : Store) (h : MemInv st) :
    MemInv (deleteSession sid st).2 := by
  unfold deleteSession
  rcases hl : alookup sid st.sessions with _ | s
  · exact h
  · dsimp only
    have hmnd : s.members.Nodup := h.membersNodup sid s hl
    have hall : ∀ sock ∈ s.members, (alookup sock st.socketToSession).isSome := by
      intro sock hmem
      rw [h.memBound sid s sock hl hmem]
      rfl
    refine ⟨?_, ?_, ?_, ?_, ?_, ?_⟩
    · exact keysNodup_aerase sid st.sessions h.sessionsNodup
    · exact keysNodup_eraseKeys s.members st.socketToSession h.mapNodup
    · intro sid2 s2 h2
      by_cases he : sid2 = sid
      · subst he
        rw [alookup_aerase_self sid2 st.sessions h.sessionsNodup] at h2
        exact absurd h2 (by simp)
      · rw [alookup_aerase_ne sid sid2 st.sessions he] at h2
        exact h.membersNodup sid2 s2 h2
    · intro sock sid2 hb
      rw [alookup_eraseKeys s.members st.socketToSession sock h.mapNodup] at hb
      by_cases hmem : sock ∈ s.members
      · rw [if_pos hmem] at hb; exact absurd hb (by simp)
      · rw [if_neg hmem] at hb
        obtain ⟨s3, h3, hmem3⟩ := h.boundMem sock sid2 hb
        by_cases he : sid2 = sid
        · subst he
          obtain rfl : s = s3 := by rw [hl] at h3; simpa using h3
          exact absurd hmem3 hmem
        · refine ⟨s3, ?_, hmem3⟩
          rw [alookup_aerase_ne sid sid2 st.sessions he]
          exact h3
    · intro sid2 s2 sock h2 hmem
      by_cases he : sid2 = sid
      · subst he
        rw [alookup_aerase_self sid2 st.sessions h.sessionsNodup] at h2
        exact absurd h2 (by simp)
      · rw [alookup_aerase_ne sid sid2 st.sessions he] at h2
        have hb := h.memBound sid2 s2 sock h2 hmem
        rw [alookup_eraseKeys s.members st.socketToSession sock h.mapNodup]
        have hnm : sock ∉ s.members := by
          intro hmem2
          have hb2 := h.memBound sid s sock hl hmem2
          rw [hb] at hb2
          exact he (by simpa using hb2)
        rw [if_neg hnm]
        exact hb
    · have hlen := length_eraseKeys s.members st.socketToSession h.mapNodup hmnd hall
      have hsum : sumVals (fun s : Session => s.members.length) (aerase sid st.sessions) +
          s.members.length = sumVals (fun s : Session => s.members.length) st.sessions :=
        sumVals_aerase_some (fun s : Session => s.members.length) sid s st.sessions hl
      have hc := h.countEq
      simp only [memberCount] at hc ⊢
      omega

theorem memInv_getSession (now : Nat) (sid : String) (st : Store) (h : MemInv st) :
    MemInv (getSession now sid st).2 := by
  unfold getSession
  rcases hl : alookup sid st.sessions with _ | s
  · exact h
  · dsimp only
    by_cases he : now > s.expiresAt
    · rw [if_pos he]
      exact memInv_deleteSession sid st h
    · rw [if_neg he]
      exact h

theorem memInv_createSession (now : Nat) (sid : String) (st : Store)
    (hfresh : alookup sid st.sessions = none) (h : MemInv st) :
    MemInv (createSession now sid st).2 := by
  unfold createSession
  dsimp only
  refine ⟨?_, ?_, ?_, ?_, ?_, ?_⟩
  · exact keysNodup_aset sid _ st.sessions h.sessionsNodup
  · exact h.mapNodup
  · intro sid2 s2 h2
    by_cases he : sid2 = sid
    · subst he
      rw [alookup_aset_self] at h2
      obtain rfl : (⟨sid2, now, now + TTL_MS, [], [], [], none⟩ : Session) = s2 := by
        simpa using h2
      exact List.nodup_nil
    · rw [alookup_aset_ne sid sid2 _ st.sessions he] at h2
      exact h.membersNodup sid2 s2 h2
  · intro sock sid2 hb
    obtain ⟨s3, h3, hmem3⟩ := h.boundMem sock sid2 hb
    by_cases he : sid2 = sid
    · subst he
      rw [hfresh] at h3
      exact absurd h3 (by simp)
    · refine ⟨s3, ?_, hmem3⟩
      rw [alookup_aset_ne sid sid2 _ st.sessions he]
      exact h3
  · intro sid2 s2 sock h2 hmem
    by_cases he : sid2 = sid
    · subst he
      rw [alookup_aset_self] at h2
      obtain rfl : (⟨sid2, now, now + TTL_MS, [], [], [], none⟩ : Session) = s2 := by
        simpa using h2
      exact absurd hmem (by simp)
    · rw [alookup_aset_ne sid sid2 _ st.sessions he] at h2
      exact h.memBound sid2 s2 sock h2 hmem
  · have hsum : sumVals (fun s : Session => s.members.length) (aset sid
        (⟨sid, now, now + TTL_MS, [], [], [], none⟩ : Session) st.sessions) =
        sumVals (fun s : Session => s.members.length) st.sessions +
          (⟨sid, now, now + TTL_MS, [], [], [], none⟩ : Session).members.length :=
      sumVals_aset_none (fun s : Session => s.members.length) sid _ st.sessions hfresh
    have hc := h.countEq
    simp only [memberCount] at hc ⊢
    simp only [List.length_nil] at hsum
    omega

theorem memInv_addMember (now : Nat) (sid sock : String) (st : Store)
    (hbind : ∀ sid0, alookup sock st.socketToSession = some sid0 → sid0 = sid)
    (h : MemInv st) : MemInv (addMember now sid sock st).2 := by
  unfold addMember
  rcases hgs : getSession now sid st with ⟨os, st1⟩
  cases os with
  | none =>
    rcases getSession_none now sid st st1 hgs with h1 | h1
    · subst h1; exact h
    · subst h1; exact memInv_deleteSession sid st h
  | some s =>
    obtain ⟨h1, h2, _⟩ := getSession_some now sid st s st1 hgs
    rw [h1]
    dsimp only
    rcases hb : alookup sock st.socketToSession with _ | sid0
    · -- the socket is unbound: both the member set and the map grow by one
      have hnm : ∀ sid2 s2, alookup sid2 st.sessions = some s2 → sock ∉ s2.members := by
        intro sid2 s2 h3 hmem
        have := h.memBound sid2 s2 sock h3 hmem
        rw [hb] at this
        exact absurd this (by simp)
      have hnms : sock ∉ s.members := hnm sid s h2
      have hadd : setAdd sock s.members = s.members ++ [sock] :=
        setAdd_of_not_mem sock s.members hnms
      refine ⟨?_, ?_, ?_, ?_, ?_, ?_⟩
      · exact keysNodup_aset sid _ st.sessions h.sessionsNodup
      · exact keysNodup_aset sock sid st.socketToSession h.mapNodup
      · intro sid2 s2 h3
        by_cases he : sid2 = sid
        · subst he
          rw [alookup_aset_self] at h3
          obtain rfl : { s with members := setAdd sock s.members } = s2 := by simpa using h3
          exact setAdd_nodup sock s.members (h.membersNodup sid2 s h2)
        · rw [alookup_aset_ne sid sid2 _ st.sessions he] at h3
          exact h.membersNodup sid2 s2 h3
      · intro sock2 sid2 hb2
        by_cases hse : sock2 = sock
        · subst hse
          rw [alookup_aset_self] at hb2
          obtain rfl : sid = sid2 := by simpa using hb2
          refine ⟨{ s with members := setAdd sock2 s.members }, alookup_aset_self _ _ _, ?_⟩
          rw [hadd]
          simp
        · rw [alookup_aset_ne sock sock2 sid st.socketToSession hse] at hb2
          obtain ⟨s3, h3, hmem3⟩ := h.boundMem sock2 sid2 hb2
          by_cases he : sid2 = sid
          · subst he
            obtain rfl : s = s3 := by rw [h2] at h3; simpa using h3
            refine ⟨{ s with members := setAdd sock s.members }, alookup_aset_self _ _ _, ?_⟩
            rw [hadd]
            simp [hmem3]
          · refine ⟨s3, ?_, hmem3⟩
            rw [alookup_aset_ne sid sid2 _ st.sessions he]
            exact h3
      · intro sid2 s2 sock2 h3 hmem
        by_cases he : sid2 = sid
        · subst he
          rw [alookup_aset_self] at h3
          obtain rfl : { s with members := setAdd sock s.members } = s2 := by simpa using h3
          rw [hadd] at hmem
          simp only [List.mem_append, List.mem_singleton] at hmem
          rcases hmem with hmem | hmem
          · have hold := h.memBound sid2 s sock2 h2 hmem
            have hse : sock2 ≠ sock := by
              intro he2
              subst he2
              rw [hb] at hold
              exact absurd hold (by simp)
            rw [alookup_aset_ne sock sock2 sid2 st.socketToSession hse]
            exact hold
          · subst hmem
            exact alookup_aset_self sock2 sid2 st.socketToSession
        · rw [alookup_aset_ne sid sid2 _ st.sessions he] at h3
          have hold := h.memBound sid2 s2 sock2 h3 hmem
          have hse : sock2 ≠ sock := by
            intro he2
            subst he2
            rw [hb] at hold
            exact absurd hold (by simp)
          rw [alookup_aset_ne sock sock2 sid st.socketToSession hse]
          exact hold
      · have hlen := length_aset_none sock sid st.socketToSession hb
        have hsum : sumVals (fun s : Session => s.members.length) (aset sid
            { s with members := setAdd sock s.members } st.sessions) + s.members.length =
            sumVals (fun s : Session => s.members.length) st.sessions +
              { s with members := setAdd sock s.members }.members.length :=
          sumVals_aset_some (fun s : Session => s.members.length) sid _ s st.sessions h2
        have hlm : { s with members := setAdd sock s.members }.members.length =
            s.members.length + 1 := by
          dsimp only
          rw [hadd]
          simp
        have hc := h.countEq
        simp only [memberCount] at hc ⊢
        omega
    · -- the socket is already bound; under the discipline it is bound to
      -- this very session, and both updates are no-ops
      have hsid0 : sid0 = sid := hbind sid0 hb
      subst hsid0
      obtain ⟨s3, h3, hmem3⟩ := h.boundMem sock sid0 hb
      obtain rfl : s = s3 := by rw [h2] at h3; simpa using h3
      have hadd : setAdd sock s.members = s.members := setAdd_of_mem sock s.members hmem3
      have hs2 : { s with members := setAdd sock s.members } = s := by
        rw [hadd]
      have hsess : aset sid0 { s with members := setAdd sock s.members } st.sessions =
          st.sessions := by
        rw [hs2]
        exact aset_eq_self sid0 s st.sessions h2
      have hmap : aset sock sid0 st.socketToSession = st.socketToSession :=
        aset_eq_self sock sid0 st.socketToSession hb
      refine ⟨?_, ?_, ?_, ?_, ?_, ?_⟩
      · rw [hsess]; exact h.sessionsNodup
      · rw [hmap]; exact h.mapNodup
      · intro sid2 s2 hx; rw [hsess] at hx; exact h.membersNodup sid2 s2 hx
      · intro sock2 sid2 hx
        rw [hmap] at hx
        obtain ⟨s4, h4, hm4⟩ := h.boundMem sock2 sid2 hx
        refine ⟨s4, ?_, hm4⟩
        rw [hsess]
        exact h4
      · intro sid2 s2 sock2 hx hm
        rw [hsess] at hx
        rw [hmap]
        exact h.memBound sid2 s2 sock2 hx hm
      · have hc := h.countEq
        simp only [memberCount] at hc ⊢
        rw [hsess, hmap]
        exact hc

theorem memInv_removeMember (sock : String) (st : Store) (h : MemInv st) :
    MemInv (removeMember sock st).2 := by
  unfold removeMember
  rcases hb : alookup sock st.socketToSession with _ | sid
  · exact h
  · dsimp only
    obtain ⟨s, hs, hmem⟩ := h.boundMem sock sid hb
    rw [hs]
    have hmnd := h.membersNodup sid s hs
    refine ⟨?_, ?_, ?_, ?_, ?_, ?_⟩
    · exact keysNodup_aset sid _ st.sessions h.sessionsNodup
    · exact keysNodup_aerase sock st.socketToSession h.mapNodup
    · intro sid2 s2 h3
      by_cases he : sid2 = sid
      · subst he
        rw [alookup_aset_self] at h3
        obtain rfl : { s with members := s.members.erase sock } = s2 := by simpa using h3
        exact hmnd.erase sock
      · rw [alookup_aset_ne sid sid2 _ st.sessions he] at h3
        exact h.membersNodup sid2 s2 h3
    · intro sock2 sid2 hb2
      have hse : sock2 ≠ sock := by
        intro he
        subst he
        rw [alookup_aerase_self sock2 st.socketToSession h.mapNodup] at hb2
        exact absurd hb2 (by simp)
      rw [alookup_aerase_ne sock sock2 st.socketToSession hse] at hb2
      obtain ⟨s3, h3, hmem3⟩ := h.boundMem sock2 sid2 hb2
      by_cases he : sid2 = sid
      · subst he
        obtain rfl : s = s3 := by rw [hs] at h3; simpa using h3
        refine ⟨{ s with members := s.members.erase sock }, alookup_aset_self _ _ _, ?_⟩
        exact (List.mem_erase_of_ne hse).mpr hmem3
      · refine ⟨s3, ?_, hmem3⟩
        rw [alookup_aset_ne sid sid2 _ st.sessions he]
        exact h3
    · intro sid2 s2 sock2 h3 hmem2
      by_cases he : sid2 = sid
      · subst he
        rw [alookup_aset_self] at h3
        obtain rfl : { s with members := s.members.erase sock } = s2 := by simpa using h3
        have hm : sock2 ≠ sock ∧ sock2 ∈ s.members := by
          constructor
          · intro he2
            subst he2
            exact (List.Nodup.not_mem_erase hmnd) hmem2
          · exact List.mem_of_mem_erase hmem2
        rw [alookup_aerase_ne sock sock2 st.socketToSession hm.1]
        exact h.memBound sid2 s sock2 hs hm.2
      · rw [alookup_aset_ne sid sid2 _ st.sessions he] at h3
        have hold := h.memBound sid2 s2 sock2 h3 hmem2
        have hse : sock2 ≠ sock := by
          intro he2
          subst he2
          rw [hb] at hold
          exact he (by simpa using hold.symm)
        rw [alookup_aerase_ne sock sock2 st.socketToSession hse]
        exact hold
    · have hlen := length_aerase_some sock sid st.socketToSession hb
      have hsum : sumVals (fun s : Session => s.members.length) (aset sid
          { s with members := s.members.erase sock } st.sessions) + s.members.length =
          sumVals (fun s : Session => s.members.length) st.sessions +
            { s with members := s.members.erase sock }.members.length :=
        sumVals_aset_some (fun s : Session => s.members.length) sid _ s st.sessions hs
      have hlm : { s with members := s.members.erase sock }.members.length + 1 =
          s.members.length := by
        dsimp only
        have := List.length_erase_of_mem hmem
        have hpos : 0 < s.members.length := List.length_pos_of_mem hmem
        omega
      have hc := h.countEq
      simp only [memberCount] at hc ⊢
      omega

theorem memInv_addFile (now : Nat) (sid fid : String) (fd : FileInput) (st : Store)
    (h : MemInv st) : MemInv (addFile now sid fid fd st).2 := by
  unfold addFile
  rcases hgs : getSession now sid st with ⟨os, st1⟩
  cases os with
  | none =>
    rcases getSession_none now sid st st1 hgs with h1 | h1
    · subst h1; exact h
    · subst h1; exact memInv_deleteSession sid st h
  | some s =>
    obtain ⟨h1, h2, _⟩ := getSession_some now sid st s st1 hgs
    rw [h1]
    dsimp only
    by_cases hc1 : s.files.length ≥ MAX_FILES_PER_SESSION
    · simp only [if_pos hc1]; exact h
    by_cases hc2 : fd.buffer.length > MAX_SIZE_BYTES
    · simp only [if_neg hc1, if_pos hc2]; exact h
    by_cases hc3 : (MAX_TOTAL_BYTES : Int) < st.totalMemoryUsage + (fd.buffer.length : Int)
    · simp only [if_neg hc1, if_neg hc2, if_pos hc3]; exact h
    simp only [if_neg hc1, if_neg hc2, if_neg hc3]
    exact memInv_set_sessions sid s _ st _ rfl rfl h2 rfl h

theorem memInv_deleteFile (now : Nat) (sid fid : String) (st : Store)
    (h : MemInv st) : MemInv (deleteFile now sid fid st).2 := by
  unfold deleteFile
  rcases hgs : getSession now sid st with ⟨os, st1⟩
  cases os with
  | none =>
    rcases getSession_none now sid st st1 hgs with h1 | h1
    · subst h1; exact h
    · subst h1; exact memInv_deleteSession sid st h
  | some s =>
    obtain ⟨h1, h2, _⟩ := getSession_some now sid st s st1 hgs
    rw [h1]
    dsimp only
    rcases hf : alookup fid s.files with _ | f
    · exact h
    · exact memInv_set_sessions sid s _ st _ rfl rfl h2 rfl h

theorem memInv_sendMessage (now : Nat) (sid : String) (content : List Char)
    (senderId senderName msgId : String) (st : Store) (h : MemInv st) :
    MemInv (sendMessage now sid content senderId senderName msgId st).2 := by
  unfold sendMessage
  rcases hgs : getSession now sid st with ⟨os, st1⟩
  cases os with
  | none =>
    rcases getSession_none now sid st st1 hgs with h1 | h1
    · subst h1; exact h
    · subst h1; exact memInv_deleteSession sid st h
  | some s =>
    obtain ⟨h1, h2, _⟩ := getSession_some now sid st s st1 hgs
    rw [h1]
    dsimp only
    by_cases hc1 : content = []
    · simp only [if_pos hc1]; exact h
    by_cases hc2 : (jsTrim content).length = 0
    · simp only [if_neg hc1, if_pos hc2]; exact h
    by_cases hc3 : s.messages.length ≥ MAX_MESSAGES_PER_SESSION
    · simp only [if_neg hc1, if_neg hc2, if_pos hc3]; exact h
    simp only [if_neg hc1, if_neg hc2, if_neg hc3]
    exact memInv_set_sessions sid s _ st _ rfl rfl h2 rfl h

theorem memInv_deleteMessage (now : Nat) (sid mid : String) (st : Store)
    (h : MemInv st) : MemInv (deleteMessage now sid mid st).2 := by
  unfold deleteMessage
  rcases hgs : getSession now sid st with ⟨os, st1⟩
  cases os with
  | none =>
    rcases getSession_none now sid st st1 hgs with h1 | h1
    · subst h1; exact h
    · subst h1; exact memInv_deleteSession sid st h
  | some s =>
    obtain ⟨h1, h2, _⟩ := getSession_some now sid st s st1 hgs
    rw [h1]
    dsimp only
    by_cases hc : (s.messages.filter (fun m => m.id ≠ mid)).length = s.messages.length
    · simp only [if_pos hc]; exact h
    simp only [if_neg hc]
    exact memInv_set_sessions sid s _ st _ rfl rfl h2 rfl h

theorem memInv_runCleanup (now : Nat) (st : Store) (h : MemInv st) :
    MemInv (runCleanup now st) := by
  unfold runCleanup
  generalize getExpiredSessions now st = ids
  induction ids generalizing st with
  | nil => simpa using h
  | cons sid ids ih =>
    simp only [List.foldl_cons]
    exact ih (deleteSession sid st).2 (memInv_deleteSession sid st h)

/-- The step relation under the membership discipline: identical to `Step`
except that `addMember` only binds a connection that is not currently bound
to a different session (a connection leaves — `removeMember` — before
joining elsewhere). -/
inductive StepM : Store → Store → Prop
  | createSession (now : Nat) (sid : String) (st : Store)
      (hfresh : alookup sid st.sessions = none) :
      StepM st (createSession now sid st).2
  | getSession (now : Nat) (sid : String) (st : Store) :
      StepM st (getSession now sid st).2
  | deleteSession (sid : String) (st : Store) :
      StepM st (deleteSession sid st).2
  | addMember (now : Nat) (sid sock : String) (st : Store)
      (hbind : ∀ sid0, alookup sock st.socketToSession = some sid0 → sid0 = sid) :
      StepM st (addMember now sid sock st).2
  | removeMember (sock : String) (st : Store) :
      StepM st (removeMember sock st).2
  | addFile (now : Nat) (sid fid : String) (fd : FileInput) (st : Store) :
      StepM st (addFile now sid fid fd st).2
  | deleteFile (now : Nat) (sid fid : String) (st : Store) :
      StepM st (deleteFile now sid fid st).2
  | sendMessage (now : Nat) (sid : String) (content : List Char)
      (senderId senderName msgId : String) (st : Store) :
      StepM st (sendMessage now sid content senderId senderName msgId st).2
  | deleteMessage (now : Nat) (sid mid : String) (st : Store) :
      StepM st (deleteMessage now sid mid st).2
  | runCleanup (now : Nat) (st : Store) :
      StepM st (runCleanup now st)

/-- States reachable under the membership discipline. -/
inductive ReachableM : Store → Prop
  | init : ReachableM emptyStore
  | step {st st2 : Store} : ReachableM st → StepM st st2 → ReachableM st2

theorem memInv_stepM {st st2 : Store} (hstep : StepM st st2) (h : MemInv st) :
    MemInv st2 := by
  cases hstep with
  | createSession now sid st hfresh => exact memInv_createSession now sid st hfresh h
  | getSession now sid st => exact memInv_getSession now sid st h
  | deleteSession sid st => exact memInv_deleteSession sid st h
  | addMember now sid sock st hbind => exact memInv_addMember now sid sock st hbind h
  | removeMember sock st => exact memInv_removeMember sock st h
  | addFile now sid fid fd st => exact memInv_addFile now sid fid fd st h
  | deleteFile now sid fid st => exact memInv_deleteFile now sid fid st h
  | sendMessage now sid content senderId senderName msgId st =>
    exact memInv_sendMessage now sid content senderId senderName msgId st h
  | deleteMessage now sid mid st => exact memInv_deleteMessage now sid mid st h
  | runCleanup now st => exact memInv_runCleanup now st h

theorem memInv_reachableM {st : Store} (h : ReachableM st) : MemInv st := by
  induction h with
  | init =>
    refine ⟨?_, ?_, ?_, ?_, ?_, ?_⟩ <;>
      simp [emptyStore, keysNodup, memberCount, sumVals, alookup]
  | step _ hstep ih => exact memInv_stepM hstep ih

/-- C2 (amended): when every `addMember` binds a connection that is not
currently bound to a different session (`ReachableM`), the number of entries
in `socketToSession` equals the sum of the member-set sizes; and `addMember`
never touches any other session's member set, so a re-binding without a
prior leave leaves the connection in the old session's member set
(`membership_consistency_cex` shows the equality then fails). -/
theorem membership_consistency_amended :
    (∀ st, ReachableM st → st.socketToSession.length = memberCount st) ∧
    (∀ now sid sock st sid2, sid2 ≠ sid →
      alookup sid2 ((addMember now sid sock st).2).sessions = alookup sid2 st.sessions) := by
  constructor
  · intro st h
    exact (memInv_reachableM h).countEq
  · intro now sid sock st sid2 hne
    unfold addMember
    rcases hgs : getSession now sid st with ⟨os, st1⟩
    cases os with
    | none =>
      rcases getSession_none now sid st st1 hgs with h1 | h1
      · subst h1; rfl
      · subst h1
        unfold deleteSession
        rcases hl : alookup sid st.sessions with _ | s
        · rfl
        · dsimp only
          exact alookup_aerase_ne sid sid2 st.sessions hne
    | some s =>
      obtain ⟨h1, h2, _⟩ := getSession_some now sid st s st1 hgs
      rw [h1]
      dsimp only
      exact alookup_aset_ne sid sid2 _ st.sessions hne

/-- A disciplined join: one session, one socket joining it once. -/
def disciplinedStore : Store :=
  (addMember 1 "AAAAA" "s1" (createSession 0 "AAAAA" emptyStore).2).2

theorem membership_consistency_amended_witness :
    disciplinedStore.socketToSession.length = memberCount disciplinedStore ∧
    alookup "BBBBB" ((addMember 1 "AAAAA" "s1"
        (createSession 0 "AAAAA" emptyStore).2).2).sessions =
      alookup "BBBBB" ((createSession 0 "AAAAA" emptyStore).2).sessions := by
  constructor
  · refine membership_consistency_amended.1 disciplinedStore ?_
    refine ReachableM.step (ReachableM.step ReachableM.init
      (StepM.createSession 0 "AAAAA" emptyStore (by decide)))
      (StepM.addMember 1 "AAAAA" "s1" (createSession 0 "AAAAA" emptyStore).2 ?_)
    intro sid0 h
    simp [createSession, emptyStore, alookup] at h
  · exact membership_consistency_amended.2 1 "AAAAA" "s1"
      (createSession 0 "AAAAA" emptyStore).2 "BBBBB" (by decide)

/-! ## Message delete authorization (C3, scenario S5) -/

/-- The S5 scenario: session created by connection `C` (which joins it, as
the `session:create` handler does), members `D` and `E` join, `D` sends
message `m1`. -/
def s5Store : Store :=
  (sendMessage 3 "AAAAA" ['h', 'i'] "D" "Dana" "m1"
    (addMember 2 "AAAAA" "E"
      (addMember 2 "AAAAA" "D"
        (addMember 1 "AAAAA" "C" (createSession 0 "AAAAA" emptyStore).2).2).2).2).2

/-- C3: the session creator cannot delete another member's message.
`createSession` never records a creator, so `session.creatorId` is
`undefined` (`none`) and the `canDeleteMessage` clause
`session.creatorId === userId` never holds: in S5 the creator `C` is denied
deletion of `D`'s message (the code's own comment says the session creator
may delete), while the sender `D` is allowed and the bystander `E` denied. -/
theorem message_delete_creator_bug :
    ((alookup "AAAAA" s5Store.sessions).map Session.creatorId) = some none ∧
    (canDeleteMessage 4 "m1" "C" "AAAAA" s5Store).1 = false ∧
    (canDeleteMessage 4 "m1" "D" "AAAAA" s5Store).1 = true ∧
    (canDeleteMessage 4 "m1" "E" "AAAAA" s5Store).1 = false := by
  refine ⟨by decide, by decide, by decide, by decide⟩

/-! ## TTL discipline (C5) -/

/-- A session created at time 0 (so `expiresAt = TTL_MS`). -/
def c5Store : Store := (createSession 0 "AAAAA" emptyStore).2

def c5Input : FileInput := ⟨[9, 9], "text/plain", ['b'], "s1"⟩

/-- C5 counterexample: at `now = expires_at` exactly, the session whose
`expires_at` is at (hence "at or before") the current time is still fully
alive — `getSession` returns it and `addFile` succeeds — because the code
tests the strict `Date.now() > session.expiresAt`. -/
theorem ttl_boundary_cex :
    Reachable c5Store ∧
    ((alookup "AAAAA" c5Store.sessions).map Session.expiresAt) = some TTL_MS ∧
    ((getSession TTL_MS "AAAAA" c5Store).1).isSome = true ∧
    (addFile TTL_MS "AAAAA" "f1" c5Input c5Store).1.isOk = true := by
  refine ⟨?_, by decide, by decide, by decide⟩
  exact Reachable.step Reachable.init (Step.createSession 0 "AAAAA" emptyStore (by decide))

theorem getSession_expired (now : Nat) (sid : String) (st : Store) (s : Session)
    (hl : alookup sid st.sessions = some s) (he : now > s.expiresAt) :
    getSession now sid st = (none, (deleteSession sid st).2) := by
  unfold getSession
  rw [hl]
  dsimp only
  rw [if_pos he]

theorem keysNodup_deleteSession (sid : String) (st : Store)
    (h : keysNodup st.sessions) : keysNodup ((deleteSession sid st).2).sessions := by
  unfold deleteSession
  rcases hl : alookup sid st.sessions with _ | s
  · exact h
  · exact keysNodup_aerase sid st.sessions h

theorem alookup_foldDelete (ks : List String) (st : Store) (hk : keysNodup st.sessions)
    (sid : String) (s : Session)
    (h : alookup sid ((ks.foldl (fun acc k => (deleteSession k acc).2) st)).sessions = some s) :
    sid ∉ ks ∧ alookup sid st.sessions = some s := by
  induction ks generalizing st with
  | nil => simpa using h
  | cons k ks ih =>
    simp only [List.foldl_cons] at h
    obtain ⟨hnotin, hl1⟩ := ih (deleteSession k st).2 (keysNodup_deleteSession k st hk) h
    unfold deleteSession at hl1
    rcases hl : alookup k st.sessions with _ | sk
    · rw [hl] at hl1
      refine ⟨?_, hl1⟩
      intro hmem
      rcases List.mem_cons.mp hmem with hmem | hmem
      · subst hmem
        rw [hl1] at hl
        exact absurd hl (by simp)
      · exact hnotin hmem
    · rw [hl] at hl1
      dsimp only at hl1
      have hne : sid ≠ k := by
        intro he
        subst he
        rw [alookup_aerase_self sid st.sessions hk] at hl1
        exact absurd hl1 (by simp)
      rw [alookup_aerase_ne k sid st.sessions hne] at hl1
      refine ⟨?_, hl1⟩
      intro hmem
      rcases List.mem_cons.mp hmem with hmem | hmem
      · exact hne hmem
      · exact hnotin hmem

/-- C5 (amended): the code's TTL test is the strict `now > expires_at`: for
every session with `expires_at` strictly before `now`, every store operation
referencing it fails as not-found without observing the session, and one
`runCleanup` tick deletes every such session while keeping `totalMemoryUsage`
equal to the bytes of the surviving sessions (i.e. the expired sessions'
bytes are released).  At `now = expires_at` exactly the session is still
live (`ttl_boundary_cex`). -/
theorem ttl_discipline_amended :
    (∀ now sid st s fid fd content senderId senderName msgId sock,
      alookup sid st.sessions = some s → now > s.expiresAt →
      (getSession now sid st).1 = none ∧
      (addFile now sid fid fd st).1 = .error .sessionNotFound ∧
      (addMember now sid sock st).1 = false ∧
      (sendMessage now sid content senderId senderName msgId st).1 =
        .error .sessionNotFound ∧
      (getFileWithBuffer now sid fid st).1 = none ∧
      (deleteFile now sid fid st).1 = false) ∧
    (∀ now st, keysNodup st.sessions → bytesInvariant st →
      (∀ sid s, alookup sid (runCleanup now st).sessions = some s → now ≤ s.expiresAt) ∧
      (runCleanup now st).totalMemoryUsage = (storedBytes (runCleanup now st) : Int)) := by
  constructor
  · intro now sid st s fid fd content senderId senderName msgId sock hl he
    have hgs := getSession_expired now sid st s hl he
    refine ⟨by rw [hgs], ?_, ?_, ?_, ?_, ?_⟩
    · unfold addFile
      rw [hgs]
    · unfold addMember
      rw [hgs]
    · unfold sendMessage
      rw [hgs]
    · unfold getFileWithBuffer
      rw [hgs]
    · unfold deleteFile
      rw [hgs]
  · intro now st hk hb
    constructor
    · intro sid s h
      unfold runCleanup at h
      obtain ⟨hnotin, hl⟩ := alookup_foldDelete (getExpiredSessions now st) st hk sid s h
      by_contra hgt
      apply hnotin
      unfold getExpiredSessions
      have hmem : (sid, s) ∈ st.sessions := alookup_some_mem sid s st.sessions hl
      have : (sid, s) ∈ st.sessions.filter (fun p => now > p.2.expiresAt) := by
        rw [List.mem_filter]
        exact ⟨hmem, by simp; omega⟩
      exact List.mem_map_of_mem (fun p => p.1) this
    · exact bytesInvariant_runCleanup now st hb

theorem ttl_discipline_amended_witness :
    (getSession (TTL_MS + 1) "AAAAA" c5Store).1 = none ∧
    (addFile (TTL_MS + 1) "AAAAA" "f1" c5Input c5Store).1 = .error .sessionNotFound ∧
    (addMember (TTL_MS + 1) "AAAAA" "s1" c5Store).1 = false ∧
    (runCleanup (TTL_MS + 1) c5Store).totalMemoryUsage =
      (storedBytes (runCleanup (TTL_MS + 1) c5Store) : Int) := by
  have h1 := ttl_discipline_amended.1 (TTL_MS + 1) "AAAAA" c5Store
    ⟨"AAAAA", 0, TTL_MS, [], [], [], none⟩ "f1" c5Input [] "" "" "" "s1"
    (by decide) (by decide)
  have h2 := ttl_discipline_amended.2 (TTL_MS + 1) c5Store
    (by unfold keysNodup; decide) (by unfold bytesInvariant; decide)
  exact ⟨h1.1, h1.2.1, h1.2.2.1, h2.2⟩

/-! ## Session code validation (C9) -/

/-- C9 counterexample: the string `IIIII` — five confusable letters `I`,
excluded by the spec's alphabet — is accepted by the source's
`isValidSessionIdFormat` (whose regex is `/^[A-Z2-9]{5}$/i`, keeping all 26
letters), while the spec's `^[A-HJ-NP-Z2-9]{5}$` rejects it. -/
theorem session_code_cex :
    isValidSessionIdFormat "IIIII" = true ∧ specValidSessionCode "IIIII" = false ∧
    isValidSessionIdFormat "OOOOO" = true ∧ specValidSessionCode "OOOOO" = false := by
  refine ⟨by decide, by decide, by decide, by decide⟩

/-- C9 (amended): `isValidSessionIdFormat(s)` holds exactly when `s` is five
characters, each a Latin letter (of either case — including the confusable
`I` and `O`) or a digit `2`–`9`; i.e. the code's class is `[A-Z2-9]`
case-insensitively, excluding only the digits `0` and `1` rather than the
spec's `0`, `O`, `1`, `I`. -/
theorem session_code_amended (s : String) :
    isValidSessionIdFormat s = true ↔
      (s.length = 5 ∧ ∀ c ∈ s.data, c.isAlpha = true ∨ ('2' ≤ c ∧ c ≤ '9')) := by
  have hc : ∀ c : Char, (isSessionIdChar c = true) ↔
      (c.isAlpha = true ∨ ('2' ≤ c ∧ c ≤ '9')) := by
    intro c
    simp only [isSessionIdChar, Bool.or_eq_true, Bool.and_eq_true, decide_eq_true_eq,
      Char.isAlpha, Char.isUpper, Char.isLower, ge_iff_le]
    exact Iff.rfl
  unfold isValidSessionIdFormat
  by_cases hs : s = ""
  · subst hs
    simp
  · rw [if_neg hs]
    simp only [Bool.and_eq_true, beq_iff_eq, List.all_eq_true]
    constructor
    · rintro ⟨h1, h2⟩
      exact ⟨h1, fun c hcmem => (hc c).mp (h2 c hcmem)⟩
    · rintro ⟨h1, h2⟩
      exact ⟨h1, fun c hcmem => (hc c).mpr (h2 c hcmem)⟩

/-! ## Message content validation (C8) -/

theorem dropWhile_replicate_of_neg {α : Type} (p : α → Bool) (a : α) (n : Nat)
    (h : p a = false) : (List.replicate n a).dropWhile p = List.replicate n a := by
  cases n with
  | zero => rfl
  | succ n => simp [List.replicate_succ, List.dropWhile_cons, h]

theorem jsTrim_replicate (n : Nat) (c : Char) (h : isJsWhitespace c = false) :
    jsTrim (List.replicate n c) = List.replicate n c := by
  unfold jsTrim
  rw [dropWhile_replicate_of_neg isJsWhitespace c n h, List.reverse_replicate,
    dropWhile_replicate_of_neg isJsWhitespace c n h, List.reverse_replicate]

/-- A message of 10 001 identical non-whitespace code points. -/
def longContent : List Char := List.replicate 10001 'a'

def c8Store : Store := (createSession 0 "AAAAA" emptyStore).2

/-- C8: the JavaScript message service wired into the socket handler performs
no upper length check: `sendMessage` accepts a 10 001-code-point content and
stores it verbatim, where the claim (and the repository's own TypeScript
`message-service.ts`, which throws `Message is too long (maximum 10,000
characters)`) requires a `TooLong` rejection above 10 000. -/
theorem message_length_unchecked :
    ((sendMessage 1 "AAAAA" longContent "D" "Dana" "m1" c8Store).1.toOption.map
      (fun m => m.content.length)) = some 10001 := by
  have hws : isJsWhitespace 'a' = false := by decide
  have htrim : jsTrim longContent = longContent := jsTrim_replicate 10001 'a' hws
  have hlen : longContent.length = 10001 := by
    unfold longContent
    exact List.length_replicate 10001 'a'
  have hne : ¬ longContent = [] := by
    intro h
    have h2 := congrArg List.length h
    rw [hlen] at h2
    simp at h2
  unfold sendMessage
  have hgs : getSession 1 "AAAAA" c8Store =
      (some ⟨"AAAAA", 0, TTL_MS, [], [], [], none⟩, c8Store) := by decide
  rw [hgs]
  dsimp only
  rw [if_neg hne, htrim, hlen]
  norm_num [Except.toOption, MAX_MESSAGES_PER_SESSION]
  exact hlen

/-! ## Chunk idempotence (C6) -/

/-- C6: delivering a fresh, valid chunk once stores it; delivering the same
`(upload_id, chunk_index, bytes)` again is acknowledged as a success (with
`duplicate: true`) and produces exactly the post-state of the single
delivery — chunks table, received count, completion flag and timestamps all
unchanged by the second call. -/
theorem chunk_idempotence (now1 now2 : Nat) (uid : String) (idx : Int) (data : List Nat)
    (uploads : ChunkStore) (up : UploadState)
    (h : alookup uid uploads = some up) (hc : up.completed = false)
    (hdup : alookup idx up.chunks = none) (h0 : 0 ≤ idx)
    (hlt : idx < (up.totalChunks : Int)) :
    processChunk now1 uid idx data uploads =
      (.ok (up.receivedChunks + 1) up.totalChunks
        (up.receivedChunks + 1 == up.totalChunks) false,
       aset uid
         { up with
           chunks := aset idx data up.chunks
           receivedChunks := up.receivedChunks + 1
           lastActivityAt := now1 }
         uploads) ∧
    processChunk now2 uid idx data (processChunk now1 uid idx data uploads).2 =
      (.ok (up.receivedChunks + 1) up.totalChunks false true,
       (processChunk now1 uid idx data uploads).2) := by
  have hfirst : processChunk now1 uid idx data uploads =
      (.ok (up.receivedChunks + 1) up.totalChunks
        (up.receivedChunks + 1 == up.totalChunks) false,
       aset uid
         { up with
           chunks := aset idx data up.chunks
           receivedChunks := up.receivedChunks + 1
           lastActivityAt := now1 }
         uploads) := by
    unfold processChunk
    rw [h]
    dsimp only
    rw [if_neg (by simp [hc]), if_neg (by simp [hdup]), if_neg (by simp; omega)]
  refine ⟨hfirst, ?_⟩
  rw [hfirst]
  unfold processChunk
  rw [alookup_aset_self]
  dsimp only
  rw [if_neg (by simp [hc]), if_pos (by simp [alookup_aset_self])]

/-- An open upload with one of two chunks received. -/
def c6up : UploadState :=
  ⟨"u1", "AAAAA", "a.bin", "application/octet-stream", 3, 2, [(0, [1])], 1, 0, 0, false, none⟩

def c6uploads : ChunkStore := [("u1", c6up)]

/-- The same upload after the second chunk arrived. -/
def c6upAfter : UploadState :=
  ⟨"u1", "AAAAA", "a.bin", "application/octet-stream", 3, 2, [(0, [1]), (1, [2, 3])],
    2, 0, 5, false, none⟩

theorem chunk_idempotence_witness :
    processChunk 5 "u1" 1 [2, 3] c6uploads = (.ok 2 2 true false, [("u1", c6upAfter)]) ∧
    processChunk 6 "u1" 1 [2, 3] (processChunk 5 "u1" 1 [2, 3] c6uploads).2 =
      (.ok 2 2 false true, (processChunk 5 "u1" 1 [2, 3] c6uploads).2) := by
  have h := chunk_idempotence 5 6 "u1" 1 [2, 3] c6uploads c6up rfl rfl
    (by decide) (by decide) (by decide)
  exact ⟨h.1.trans (by decide), h.2⟩

/-! ## Complete postcondition (C7) -/

theorem collectFrom_error_spec (chunks : List (Int × List Nat)) (n : Nat) :
    ∀ start i, collectFrom chunks start n = .error i →
      start ≤ i ∧ i < start + n ∧ alookup (i : Int) chunks = none ∧
      ∀ j, start ≤ j → j < i → (alookup (j : Int) chunks).isSome := by
  induction n with
  | zero => intro start i h; simp [collectFrom] at h
  | succ n ih =>
    intro start i h
    unfold collectFrom at h
    rcases hl : alookup (start : Int) chunks with _ | c
    · rw [hl] at h
      obtain rfl : start = i := by simpa using h
      exact ⟨le_refl _, by omega, hl, fun j h1 h2 => absurd (lt_of_lt_of_le h2 h1) (by omega)⟩
    · rw [hl] at h
      dsimp only at h
      rcases hr : collectFrom chunks (start + 1) n with j | rest
      · rw [hr] at h
        have hji : j = i := by simpa using h
        rw [← hji]
        obtain ⟨h1, h2, h3, h4⟩ := ih (start + 1) j hr
        refine ⟨by omega, by omega, h3, ?_⟩
        intro j2 hj1 hj2
        by_cases hj : j2 = start
        · subst hj
          rw [hl]
          rfl
        · exact h4 j2 (by omega) hj2
      · rw [hr] at h
        simp at h

theorem collectFrom_ok_spec (chunks : List (Int × List Nat)) (n : Nat) :
    ∀ start parts, collectFrom chunks start n = .ok parts →
      parts = (List.range n).map (fun k => (alookup ((start + k : Nat) : Int) chunks).getD []) := by
  induction n with
  | zero =>
    intro start parts h
    simp only [collectFrom] at h
    obtain rfl : ([] : List (List Nat)) = parts := by simpa using h
    simp
  | succ n ih =>
    intro start parts h
    unfold collectFrom at h
    rcases hl : alookup (start : Int) chunks with _ | c
    · rw [hl] at h; simp at h
    · rw [hl] at h
      dsimp only at h
      rcases hr : collectFrom chunks (start + 1) n with j | rest
      · rw [hr] at h; simp at h
      · rw [hr] at h
        obtain rfl : c :: rest = parts := by simpa using h
        have hrest := ih (start + 1) rest hr
        rw [List.range_succ_eq_map, List.map_cons]
        congr 1
        · rw [Nat.add_zero, hl]
          rfl
        · rw [hrest, List.map_map]
          apply List.map_congr_left
          intro k _
          simp only [Function.comp]
          congr 2
          omega

/-- C7: `assembleFile` fails `incomplete` exactly when the received count
differs from `totalChunks`; with matching counts it scans indices
`0 … totalChunks-1` in ascending order and fails `missingChunk i` at the
least absent index `i`; with all chunks present it fails `sizeMismatch` when
the concatenated length differs from the declared size; and on success it
returns the ascending concatenation of the chunks together with the declared
filename, MIME type and size, marking the upload completed (with the 60 s
removal delay) and clearing its chunks table. -/
theorem complete_postcondition (now : Nat) (uid : String) (uploads : ChunkStore)
    (up : UploadState) (h : alookup uid uploads = some up) :
    (up.receivedChunks ≠ up.totalChunks →
      assembleFile now uid uploads = (.incomplete up.receivedChunks up.totalChunks, uploads)) ∧
    (∀ i, up.receivedChunks = up.totalChunks →
      collectFrom up.chunks 0 up.totalChunks = .error i →
      assembleFile now uid uploads = (.missingChunk i, uploads) ∧
      alookup (i : Int) up.chunks = none ∧ i < up.totalChunks ∧
      ∀ j, j < i → (alookup (j : Int) up.chunks).isSome) ∧
    (∀ parts, up.receivedChunks = up.totalChunks →
      collectFrom up.chunks 0 up.totalChunks = .ok parts →
      parts.flatten.length ≠ up.size →
      assembleFile now uid uploads = (.sizeMismatch up.size parts.flatten.length, uploads)) ∧
    (∀ parts, up.receivedChunks = up.totalChunks →
      collectFrom up.chunks 0 up.totalChunks = .ok parts →
      parts.flatten.length = up.size →
      assembleFile now uid uploads =
        (.ok (((List.range up.totalChunks).map
            (fun k => (alookup ((k : Nat) : Int) up.chunks).getD [])).flatten)
          up.filename up.mimeType up.size 60000,
         aset uid { up with completed := true, completedAt := some now, chunks := [] }
           uploads)) := by
  refine ⟨?_, ?_, ?_, ?_⟩
  · intro hne
    unfold assembleFile
    rw [h]
    dsimp only
    rw [if_pos hne]
  · intro i heq herr
    have hspec := collectFrom_error_spec up.chunks up.totalChunks 0 i herr
    refine ⟨?_, hspec.2.2.1, by omega, fun j hj => hspec.2.2.2 j (by omega) hj⟩
    unfold assembleFile
    rw [h]
    dsimp only
    rw [if_neg (by omega), herr]
  · intro parts heq hok hneq
    unfold assembleFile
    rw [h]
    dsimp only
    rw [if_neg (by omega), hok]
    dsimp only
    rw [if_pos hneq]
  · intro parts heq hok hsz
    have hparts := collectFrom_ok_spec up.chunks up.totalChunks 0 parts hok
    unfold assembleFile
    rw [h]
    dsimp only
    rw [if_neg (by omega), hok]
    dsimp only
    rw [if_neg (by omega)]
    have : parts = (List.range up.totalChunks).map
        (fun k => (alookup ((k : Nat) : Int) up.chunks).getD []) := by
      rw [hparts]
      apply List.map_congr_left
      intro k _
      congr 2
      omega
    rw [← this]

/-- A fully received two-chunk upload: chunks `[1]` and `[2, 3]`, declared
size 3. -/
def c7up : UploadState :=
  ⟨"u1", "AAAAA", "a.bin", "application/octet-stream", 3, 2,
    [(0, [1]), (1, [2, 3])], 2, 0, 0, false, none⟩

def c7uploads : ChunkStore := [("u1", c7up)]

theorem complete_postcondition_witness :
    assembleFile 5 "u1" c7uploads =
      (.ok [1, 2, 3] "a.bin" "application/octet-stream" 3 60000,
       [("u1", ⟨"u1", "AAAAA", "a.bin", "application/octet-stream", 3, 2,
         [], 2, 0, 0, true, some 5⟩)]) := by
  have h := (complete_postcondition 5 "u1" c7uploads c7up rfl).2.2.2 [[1], [2, 3]]
    rfl rfl (by decide)
  exact h.trans (by decide)

/-! ## Duplicate Complete (C10) -/

/-- C10: after a successful `assembleFile` the upload state is retained (its
scheduled removal fires only 60 000 ms later) with `completed = true`,
cleared chunks and an unchanged `receivedChunks`; a second `assembleFile`
during that window passes the `receivedChunks === totalChunks` check (the
count was never reset), immediately misses chunk 0 in the cleared table, and
returns the `Missing chunk 0.` error — neither success nor an
already-completed report — leaving the retained state unchanged. -/
theorem duplicate_complete (now now2 : Nat) (uid : String)
    (uploads uploads2 : ChunkStore) (up : UploadState) (buf : List Nat)
    (fn mt : String) (sz d : Nat)
    (h : alookup uid uploads = some up) (hn : 0 < up.totalChunks)
    (hok : assembleFile now uid uploads = (.ok buf fn mt sz d, uploads2)) :
    d = 60000 ∧
    alookup uid uploads2 =
      some { up with completed := true, completedAt := some now, chunks := [] } ∧
    assembleFile now2 uid uploads2 = (.missingChunk 0, uploads2) := by
  unfold assembleFile at hok
  rw [h] at hok
  dsimp only at hok
  by_cases hr : up.receivedChunks ≠ up.totalChunks
  · rw [if_pos hr] at hok
    exact absurd hok (by simp)
  rw [if_neg hr] at hok
  rcases hc : collectFrom up.chunks 0 up.totalChunks with i | parts
  · rw [hc] at hok
    exact absurd hok (by simp)
  rw [hc] at hok
  dsimp only at hok
  by_cases hsz : parts.flatten.length ≠ up.size
  · rw [if_pos hsz] at hok
    exact absurd hok (by simp)
  rw [if_neg hsz] at hok
  simp only [Prod.mk.injEq, AssembleResult.ok.injEq] at hok
  obtain ⟨⟨hbuf, hfn, hmt, hsz2, hd⟩, hst⟩ := hok
  refine ⟨hd.symm, ?_, ?_⟩
  · rw [← hst]
    exact alookup_aset_self uid _ uploads
  · have hl2 : alookup uid uploads2 =
        some { up with completed := true, completedAt := some now, chunks := [] } := by
      rw [← hst]
      exact alookup_aset_self uid _ uploads
    unfold assembleFile
    rw [hl2]
    dsimp only
    rw [if_neg (by simpa using hr)]
    have hmiss : collectFrom ([] : List (Int × List Nat)) 0 up.totalChunks = .error 0 := by
      rcases hnn : up.totalChunks with _ | n
      · omega
      · rfl
    rw [hmiss]

theorem duplicate_complete_witness :
    assembleFile 9 "u1" (assembleFile 5 "u1" c7uploads).2 =
      (.missingChunk 0, (assembleFile 5 "u1" c7uploads).2) := by
  have h := duplicate_complete 5 9 "u1" c7uploads (assembleFile 5 "u1" c7uploads).2 c7up
    [1, 2, 3] "a.bin" "application/octet-stream" 3 60000 rfl (by decide) (by rfl)
  exact h.2.2

/-! ## Payload round-trip (C4) -/

theorem uploadFile_ok_roundtrip (now : Nat) (sid : String) (buf : List Nat)
    (mt : Option String) (fn : Option (List Char)) (sock fid : String) (st : Store)
    (f : FileRec) (st2 : Store)
    (h : uploadFile now sid buf mt fn sock fid st = (.ok f, st2)) :
    f.buffer = buf ∧ f.id = fid ∧ st2.socketToSession = st.socketToSession ∧
    getFileWithBuffer now sid fid st2 = (some f, st2) := by
  unfold uploadFile at h
  by_cases hc1 : buf.length > MAX_SIZE_BYTES
  · rw [if_pos hc1] at h; exact absurd h (by simp)
  rw [if_neg hc1] at h
  by_cases hc2 : buf.length = 0
  · rw [if_pos hc2] at h; exact absurd h (by simp)
  rw [if_neg hc2] at h
  dsimp only at h
  split at h
  next e st1 heq => exact absurd h (by simp)
  next f2 st1 heq =>
    simp only [Prod.mk.injEq, Except.ok.injEq] at h
    obtain ⟨hf, hst⟩ := h
    obtain ⟨s, hs, hexp, hfeq, hst2⟩ := addFile_ok_state now sid fid _ st f2 st1 heq
    refine ⟨?_, ?_, ?_, ?_⟩
    · rw [← hf, hfeq]
    · rw [← hf, hfeq]
    · rw [← hst, hst2]
    · rw [← hst, ← hf]
      have hsl : alookup sid st1.sessions =
          some { s with files := aset fid f2 s.files } := by
        rw [hst2]
        exact alookup_aset_self sid _ st.sessions
      have hexp0 : ¬ now > s.expiresAt := by omega
      have hexp2 : ¬ now > ({ s with files := aset fid f2 s.files } : Session).expiresAt :=
        hexp0
      have hgs2 : getSession now sid st1 =
          (some { s with files := aset fid f2 s.files }, st1) := by
        unfold getSession
        rw [hsl]
        dsimp only
        rw [if_neg hexp2]
      unfold getFileWithBuffer
      rw [hgs2]
      dsimp only
      rw [alookup_aset_self]

theorem requestFile_after_upload (now : Nat) (sid sock fid : String) (st st2 : Store)
    (f : FileRec) (buf : List Nat) (mt : Option String) (fn : Option (List Char))
    (hb : alookup sock st.socketToSession = some sid)
    (hfid : isValidFileIdFormat fid = true)
    (h : uploadFile now sid buf mt fn sock fid st = (.ok f, st2)) :
    f.buffer = buf ∧ (requestFileHandler now sock fid st2).1 = some f := by
  obtain ⟨hbuf, hid, hmap, hget⟩ := uploadFile_ok_roundtrip now sid buf mt fn sock fid st f st2 h
  refine ⟨hbuf, ?_⟩
  unfold requestFileHandler
  rw [hmap, hb]
  dsimp only
  rw [if_pos hfid, hget]

/-- C4 (amended): the payload bytes round-trip bit-identically whenever the
image optimizer is not applied to them — in particular for every non-image
MIME type and every payload of at most 500KB (`shouldOptimize = false`), and
unconditionally on the chunked path, whose assembled payload is the
concatenation of the uploaded chunks in ascending index order and is handed
to `uploadFile` without optimization.  When `shouldOptimize` holds, the
handler stores the optimizer's output instead of the uploaded bytes
(`payload_roundtrip_cex`), so bit-identity is not guaranteed for images over
500KB. -/
theorem payload_roundtrip_amended :
    (∀ opt now sock buf mt fn ds fid st f st2,
      shouldOptimize (mt.getD "application/octet-stream") buf.length = false →
      isValidFileIdFormat fid = true →
      uploadFileHandler opt now sock buf mt fn ds fid st = (.ok f, st2) →
      f.buffer = buf ∧ (requestFileHandler now sock fid st2).1 = some f) ∧
    (∀ now uid uploads up buf fn mt sz d uploads2,
      alookup uid uploads = some up →
      assembleFile now uid uploads = (.ok buf fn mt sz d, uploads2) →
      buf = ((List.range up.totalChunks).map
        (fun k => (alookup ((k : Nat) : Int) up.chunks).getD [])).flatten ∧
      ∀ sid sock fid st f st2,
        alookup sock st.socketToSession = some sid →
        isValidFileIdFormat fid = true →
        uploadFile now sid buf (some mt) (some fn.data) sock fid st = (.ok f, st2) →
        f.buffer = buf ∧ (requestFileHandler now sock fid st2).1 = some f) := by
  constructor
  · intro opt now sock buf mt fn ds fid st f st2 hopt hfid h
    unfold uploadFileHandler at h
    rcases hb : alookup sock st.socketToSession with _ | sid
    · rw [hb] at h; exact absurd h (by simp)
    rw [hb] at h
    dsimp only at h
    rcases hgs : getSession now sid st with ⟨os, st1⟩
    rw [hgs] at h
    cases os with
    | none => dsimp only at h; exact absurd h (by simp)
    | some s =>
      obtain ⟨h1, _, _⟩ := getSession_some now sid st s st1 hgs
      rw [h1] at h
      dsimp only at h
      split at h
      · exact absurd h (by simp)
      · rw [if_neg (by simp [hopt])] at h
        split at h
        next e st3 heq => exact absurd h (by simp)
        next f2 st3 heq =>
          simp only [Prod.mk.injEq, Except.ok.injEq] at h
          obtain ⟨hf, hst⟩ := h
          rw [← hf, ← hst]
          exact requestFile_after_upload now sid sock fid st st3 f2 buf mt _ hb hfid heq
  · intro now uid uploads up buf fn mt sz d uploads2 h hok
    have hshape : buf = ((List.range up.totalChunks).map
        (fun k => (alookup ((k : Nat) : Int) up.chunks).getD [])).flatten := by
      unfold assembleFile at hok
      rw [h] at hok
      dsimp only at hok
      by_cases hr : up.receivedChunks ≠ up.totalChunks
      · rw [if_pos hr] at hok; exact absurd hok (by simp)
      rw [if_neg hr] at hok
      rcases hc : collectFrom up.chunks 0 up.totalChunks with i | parts
      · rw [hc] at hok; exact absurd hok (by simp)
      rw [hc] at hok
      dsimp only at hok
      by_cases hsz : parts.flatten.length ≠ up.size
      · rw [if_pos hsz] at hok; exact absurd hok (by simp)
      rw [if_neg hsz] at hok
      simp only [Prod.mk.injEq, AssembleResult.ok.injEq] at hok
      obtain ⟨⟨hbuf, _, _, _, _⟩, _⟩ := hok
      rw [← hbuf]
      have hparts := collectFrom_ok_spec up.chunks up.totalChunks 0 parts hc
      rw [hparts]
      congr 1
      apply List.map_congr_left
      intro k _
      congr 2
      omega
    refine ⟨hshape, ?_⟩
    intro sid sock fid st f st2 hb hfid hup
    exact requestFile_after_upload now sid sock fid st st2 f buf (some mt)
      (some fn.data) hb hfid hup

/-- When the optimizer applies (`shouldOptimize` true, no optimizer error),
the `file:upload` handler stores the optimizer's output buffer, not the
uploaded bytes. -/
theorem uploadFileHandler_optimizes (opt : List Nat → String → OptimizeOutcome)
    (now : Nat) (sock : String) (buf : List Nat) (mt : String) (fnl : List Char)
    (fid sid : String) (s : Session) (st : Store)
    (hb : alookup sock st.socketToSession = some sid)
    (hgs : getSession now sid st = (some s, st))
    (hsz : ¬ buf.length > 100 * 1024 * 1024)
    (hopt : shouldOptimize mt buf.length = true)
    (herr : (opt buf mt).isError = false)
    (hfnl : ¬ fnl = []) :
    ∀ f st2, uploadFile now sid (opt buf mt).buffer (some mt) (some fnl) sock fid st =
        (.ok f, st2) →
      uploadFileHandler opt now sock buf (some mt) (some fnl) none fid st = (.ok f, st2) := by
  intro f st2 hup
  unfold uploadFileHandler
  rw [hb]
  dsimp only
  rw [hgs]
  dsimp only
  simp only [Option.getD]
  rw [if_neg hsz, if_pos hopt, if_neg (by simp [herr]), if_neg hfnl, hup]

def c4joined : Store :=
  (addMember 1 "AAAAA" "s1" (createSession 0 "AAAAA" emptyStore).2).2

def c4fid : String := "00000000000000000000000000000000"

/-- A stand-in for `sharp` recompression: an optimizer that returns a
different buffer (as recompression of a >500KB image does). -/
def rewritingOptimizer : List Nat → String → OptimizeOutcome := fun _ _ => ⟨[0], false⟩

/-- A 512001-byte (>500KB) JPEG payload. -/
def bigImage : List Nat := List.replicate 512001 1

def c4bigFile : FileRec := ⟨c4fid, [0], "image/jpeg", ['p', '.', 'j'], 1, 2, "s1"⟩

/-- C4 counterexample: a >500KB `image/jpeg` upload through the small-upload
path is handed to the image optimizer, and the stored and returned bytes are
the optimizer's output, not the uploaded bytes: with an optimizer that
rewrites the buffer (as recompression does), `file:request` returns `[0]`
for an upload of 512001 bytes of ones. -/
theorem payload_roundtrip_cex :
    (uploadFileHandler rewritingOptimizer 2 "s1" bigImage (some "image/jpeg")
        (some ['p', '.', 'j']) none c4fid c4joined).1.toOption.map FileRec.buffer =
      some [0] ∧
    ((requestFileHandler 2 "s1" c4fid
        (uploadFileHandler rewritingOptimizer 2 "s1" bigImage (some "image/jpeg")
          (some ['p', '.', 'j']) none c4fid c4joined).2).1.map FileRec.buffer) =
      some [0] ∧
    bigImage ≠ [0] := by
  have hlen : bigImage.length = 512001 := by
    unfold bigImage
    exact List.length_replicate _ _
  have h := uploadFileHandler_optimizes rewritingOptimizer 2 "s1" bigImage "image/jpeg"
    ['p', '.', 'j'] c4fid "AAAAA" ⟨"AAAAA", 0, TTL_MS, [], ["s1"], [], none⟩ c4joined
    (by decide) (by decide) (by rw [hlen]; decide)
    (by unfold shouldOptimize; rw [hlen]; decide) rfl (by decide)
    c4bigFile (uploadFile 2 "AAAAA" [0] (some "image/jpeg") (some ['p', '.', 'j'])
      "s1" c4fid c4joined).2 (by rfl)
  rw [h]
  refine ⟨by decide, by decide, ?_⟩
  intro he
  have h2 := congrArg List.length he
  rw [hlen] at h2
  simp at h2

/-- An optimizer that never fires in the witness (non-image MIME type). -/
def c4optId : List Nat → String → OptimizeOutcome := fun b _ => ⟨b, false⟩

def c4smallFile : FileRec := ⟨c4fid, [7, 8], "text/plain", ['x', '.', 't'], 2, 2, "s1"⟩

theorem payload_roundtrip_amended_witness :
    (c4smallFile.buffer = [7, 8] ∧
     (requestFileHandler 2 "s1" c4fid
        (uploadFileHandler c4optId 2 "s1" [7, 8] (some "text/plain")
          (some ['x', '.', 't']) none c4fid c4joined).2).1 = some c4smallFile) ∧
    [1, 2, 3] = ((List.range c7up.totalChunks).map
      (fun k => (alookup ((k : Nat) : Int) c7up.chunks).getD [])).flatten := by
  constructor
  · exact payload_roundtrip_amended.1 c4optId 2 "s1" [7, 8] (some "text/plain")
      (some ['x', '.', 't']) none c4fid c4joined c4smallFile
      (uploadFileHandler c4optId 2 "s1" [7, 8] (some "text/plain")
        (some ['x', '.', 't']) none c4fid c4joined).2
      (by decide) (by decide) (by rfl)
  · exact (payload_roundtrip_amended.2 5 "u1" c7uploads c7up [1, 2, 3] "a.bin"
      "application/octet-stream" 3 60000 (assembleFile 5 "u1" c7uploads).2
      rfl (by rfl)).1
